import Mathlib

/-!
# The line editor of pianobar: `src/ui_readline.c`

A shallow embedding of `BarReadline` and of its wrappers `BarReadlineStr`,
`BarReadlineInt` and `BarReadlineYesNo`.

* Bytes are natural numbers (`0 .. 255`); the buffer `buf` is a list of bytes,
  and every access to it is bounds checked: an access outside the list is
  reported as `outOfBounds` instead of being given a meaning.
* The variable `chr` is a plain `char`, whose signedness the C standard leaves
  to the implementation.  The embedding takes it as the parameter
  `charSigned` (`true` on x86 and x86-64 with the System V ABI, `false` on
  ARM Linux).  It matters in exactly one place, the comparison
  `chr <= 0x1F`.
* `select` and `read` are the environment: every loop iteration consumes one
  `Event`, which says whether `select` failed, which descriptors it reported
  ready, and what `read` delivered.  A call that has consumed all the events
  it was given is still blocked in `select`; this is the outcome `running`.
* `stdout` is the list of bytes written by the call.
-/

namespace UiReadline

/-! ## Declarations of `ui_readline.h` -/

/-- Modelled from the spec: the header `ui_readline.h` is not among the
sources.  The flags are a bitset with two recognised options, full-return and
no-echo; `flags & BAR_RL_FULLRETURN` is the field `fullreturn` and
`flags & BAR_RL_NOECHO` is the field `noecho`. -/
structure BarReadlineFlags where
  fullreturn : Bool
  noecho : Bool
deriving DecidableEq, Repr

/-- Modelled from the spec: the default flags have no option set. -/
def BAR_RL_DEFAULT : BarReadlineFlags := ⟨false, false⟩

/-- Modelled from the spec: the full-return option alone. -/
def BAR_RL_FULLRETURN : BarReadlineFlags := ⟨true, false⟩

/-- Modelled from the spec: the no-echo option alone. -/
def BAR_RL_NOECHO : BarReadlineFlags := ⟨false, true⟩

/-- Modelled from the spec: the type `BarReadlineFds_t` of the missing header,
a descriptor set to wait on, the maximum descriptor, and the two descriptors
`fds[0]` (primary) and `fds[1]` (secondary, `-1` when absent). -/
structure BarReadlineFds where
  set : List Int
  maxfd : Int
  fds0 : Int
  fds1 : Int
deriving DecidableEq, Repr

/-- The descriptor number of standard input (`unistd.h`). -/
def STDIN_FILENO : Int := 0

/-- The largest `size_t` (LP64). -/
def SIZE_MAX : Nat := 2 ^ 64 - 1

/-! ## Bytes and plain `char` -/

/-- The value of a plain `char` holding the byte `b`, after integer promotion:
negative for `b >= 128` when plain `char` is signed. -/
def charVal (charSigned : Bool) (b : Nat) : Int :=
  if charSigned && decide (128 ≤ b) then (b : Int) - 256 else (b : Int)

/-- The test `!(b & (1 << 7))`.  Promotion of a negative `char` is a sign
extension, which keeps bits 6 and 7, so the test reads the byte. -/
def BarReadlineIsAscii (b : Nat) : Bool :=
  !(b &&& (1 <<< 7) != 0)

/-- The test `(b & (1 << 7)) && (b & (1 << 6))`. -/
def BarReadlineIsUtf8Start (b : Nat) : Bool :=
  (b &&& (1 <<< 7) != 0) && (b &&& (1 <<< 6) != 0)

/-- The test `(b & (1 << 7)) && !(b & (1 << 6))`. -/
def BarReadlineIsUtf8Content (b : Nat) : Bool :=
  (b &&& (1 <<< 7) != 0) && !(b &&& (1 <<< 6) != 0)

/-- The test `strchr (mask, chr) != NULL` on a C string whose bytes before the
terminator are `mask`: the terminator itself is found as well. -/
def strchr (mask : List Nat) (chr : Nat) : Bool :=
  chr == 0 || mask.contains chr

/-! ## The editor state -/

/-- The local variables of `BarReadline`, the bytes it has written to
`stdout`, and `*input`. -/
structure RlState where
  buf : List Nat
  bufPos : Nat
  bufLen : Nat
  escapeState : Nat
  out : List Nat
  input : BarReadlineFds
deriving DecidableEq, Repr

/-- What `read` did in one iteration: it stored the byte `b` in `chr`, or it
returned `<= 0` and left `chr`, an uninitialised local of the loop body, with
the indeterminate value `stale`. -/
inductive ReadResult where
  | got (b : Nat)
  | failed (stale : Nat)
deriving DecidableEq, Repr

/-- What the environment does in one loop iteration: `select` fails, or it
returns with the descriptor set `ready` and `read` on the chosen descriptor
gives `r`. -/
inductive Event where
  | selectFail
  | ready (rset : List Int) (r : ReadResult)
deriving DecidableEq, Repr

/-- The result of one loop iteration: go on with the loop, return `n`, or an
access outside `buf`. -/
inductive Step where
  | next (s : RlState)
  | ret (n : Nat) (s : RlState)
  | fault
deriving DecidableEq, Repr

/-- The result of a call on a finite list of events: `running` when the events
are used up and the call waits in `select`, `returned n s rest` when it
returned `n` in state `s` leaving the events `rest` unread. -/
inductive Outcome where
  | running (s : RlState)
  | returned (n : Nat) (s : RlState) (rest : List Event)
  | assertFailed
  | outOfBounds
deriving DecidableEq, Repr

/-! ## `BarReadlineMoveLeft` -/

/-- The loop `while (tmpBuf < &buf[*bufLen]) { *tmpBuf = *(tmpBuf+1); ++tmpBuf; }`
with `tmp` the index of `tmpBuf` and the first argument the number of
iterations left. -/
def moveLeftLoop : Nat → Nat → List Nat → Option (List Nat)
  | 0, _, buf => some buf
  | n + 1, tmp, buf =>
    match buf[tmp + 1]? with
    | none => none
    | some v =>
      if tmp < buf.length then moveLeftLoop n (tmp + 1) (buf.set tmp v) else none

/-- The function `BarReadlineMoveLeft`: the new `buf`, `*bufPos`, `*bufLen`.
`none` for an access outside `buf`, and for `*bufPos == 0`, where `tmpBuf`
would point before the buffer. -/
def BarReadlineMoveLeft (buf : List Nat) (bufPos bufLen : Nat) :
    Option (List Nat × Nat × Nat) :=
  if bufPos = 0 then none
  else
    match moveLeftLoop (bufLen - (bufPos - 1)) (bufPos - 1) buf with
    | none => none
    | some buf1 => some (buf1, bufPos - 1, if bufLen = 0 then SIZE_MAX else bufLen - 1)

/-- The loop `while (BarReadlineIsUtf8Content (buf[bufPos-1])) BarReadlineMoveLeft (...)`,
by recursion on `bufPos`, which every call of `BarReadlineMoveLeft` decrements.
With `bufPos == 0` the condition reads `buf[-1]`. -/
def deleteUtf8Content : Nat → List Nat → Nat → Option (List Nat × Nat × Nat)
  | 0, _, _ => none
  | p + 1, buf, bufLen =>
    match buf[p]? with
    | none => none
    | some b =>
      if BarReadlineIsUtf8Content b then
        match BarReadlineMoveLeft buf (p + 1) bufLen with
        | none => none
        | some (buf1, _, len1) => deleteUtf8Content p buf1 len1
      else some (buf, p + 1, bufLen)

/-- The statement `if (BarReadlineIsUtf8Start (buf[bufPos-1])) BarReadlineMoveLeft (...)`. -/
def deleteUtf8Start (buf : List Nat) (bufPos bufLen : Nat) :
    Option (List Nat × Nat × Nat) :=
  if bufPos = 0 then none
  else
    match buf[bufPos - 1]? with
    | none => none
    | some b =>
      if BarReadlineIsUtf8Start b then BarReadlineMoveLeft buf bufPos bufLen
      else some (buf, bufPos, bufLen)

/-- The deletion inside `if (bufPos > 0)` of the backspace case, for
`bufPos > 0`. -/
def deleteLast (buf : List Nat) (bufPos bufLen : Nat) : Option (List Nat × Nat × Nat) :=
  match buf[bufPos - 1]? with
  | none => none
  | some last =>
    if BarReadlineIsAscii last then BarReadlineMoveLeft buf bufPos bufLen
    else
      match deleteUtf8Content bufPos buf bufLen with
      | none => none
      | some (buf1, pos1, len1) => deleteUtf8Start buf1 pos1 len1

/-- The bytes of `"\033[D\033[K"`. -/
def caretBackErase : List Nat := [27, 91, 68, 27, 91, 75]

/-- The bytes of `"\033[K"`. -/
def eraseToEnd : List Nat := [27, 91, 75]

/-- The cases `8` and `127` of the switch. -/
def backspace (flags : BarReadlineFlags) (s : RlState) : Step :=
  if 0 < s.bufPos then
    match deleteLast s.buf s.bufPos s.bufLen with
    | none => Step.fault
    | some (buf1, pos1, len1) =>
      Step.next { s with
        buf := buf1, bufPos := pos1, bufLen := len1,
        out := if flags.noecho then s.out else s.out ++ caretBackErase }
  else
    match s.buf[s.bufPos]? with
    | none => Step.fault
    | some b =>
      if b != 0 then
        Step.next { s with
          buf := s.buf.set s.bufPos 0,
          out := if flags.noecho then s.out else s.out ++ eraseToEnd }
      else Step.next s

/-- The condition `mask != NULL && !strchr (mask, chr)`. -/
def maskRejects (mask : Option (List Nat)) (chr : Nat) : Bool :=
  match mask with
  | none => false
  | some m => !strchr m chr

/-- The block `if (bufPos < bufSize-1) { ... }` at the end of the `default`
case: store `chr`, echo it, and return when the buffer is full and that was
asked for. -/
def appendChr (bufSize : Nat) (flags : BarReadlineFlags) (s : RlState) (chr : Nat) : Step :=
  if s.bufPos < bufSize - 1 then
    if s.bufPos < s.buf.length then
      if flags.fullreturn && decide (bufSize - 1 ≤ s.bufPos + 1) then
        Step.ret (s.bufLen + 1) { s with
          buf := s.buf.set s.bufPos chr, bufPos := s.bufPos + 1, bufLen := s.bufLen + 1,
          out := (if flags.noecho then s.out else s.out ++ [chr]) ++ [10] }
      else
        Step.next { s with
          buf := s.buf.set s.bufPos chr, bufPos := s.bufPos + 1, bufLen := s.bufLen + 1,
          out := if flags.noecho then s.out else s.out ++ [chr] }
    else Step.fault
  else Step.next s

/-- The `default` case of the switch. -/
def defaultCase (charSigned : Bool) (bufSize : Nat) (mask : Option (List Nat))
    (flags : BarReadlineFlags) (s : RlState) (chr : Nat) : Step :=
  if charVal charSigned chr ≤ 0x1F then Step.next s
  else if s.escapeState = 2 then Step.next { s with escapeState := 0 }
  else if s.escapeState = 1 ∧ chr = 91 then Step.next { s with escapeState := 2 }
  else if maskRejects mask chr then Step.next s
  else appendChr bufSize flags s chr

/-- The statement `switch (chr) { ... }`.  The case labels are all below 128,
where a `char` and its byte agree whatever the signedness. -/
def dispatch (charSigned : Bool) (bufSize : Nat) (mask : Option (List Nat))
    (flags : BarReadlineFlags) (s : RlState) (chr : Nat) : Step :=
  if chr = 4 then Step.ret s.bufLen { s with out := s.out ++ [10] }
  else if chr = 10 then Step.ret s.bufLen { s with out := s.out ++ [10] }
  else if chr = 27 then Step.next { s with escapeState := 1 }
  else if chr = 126 then Step.next s
  else if chr = 8 ∨ chr = 127 then backspace flags s
  else defaultCase charSigned bufSize mask flags s chr

/-- The descriptor chosen from the set that `select` returned. -/
def curFd (input : BarReadlineFds) (rset : List Int) : Int :=
  if rset.contains input.fds0 then input.fds0
  else if input.fds1 != -1 && rset.contains input.fds1 then input.fds1
  else -1

/-- One iteration of `while (1)`.  A failing `select` leaves the loop, after
which the function returns 0.  When `read` fails on standard input, `FD_CLR`
takes the descriptor out of `input->set` and the loop continues; when it fails
on another descriptor, the switch runs on the stale `chr`. -/
def iteration (charSigned : Bool) (bufSize : Nat) (mask : Option (List Nat))
    (flags : BarReadlineFlags) (s : RlState) : Event → Step
  | Event.selectFail => Step.ret 0 s
  | Event.ready _ (ReadResult.got b) => dispatch charSigned bufSize mask flags s b
  | Event.ready rset (ReadResult.failed stale) =>
    if curFd s.input rset = STDIN_FILENO then
      Step.next { s with
        input := { s.input with
          set := s.input.set.filter (fun fd => fd != curFd s.input rset) } }
    else dispatch charSigned bufSize mask flags s stale

/-- The loop `while (1)` on the events of the environment. -/
def loop (charSigned : Bool) (bufSize : Nat) (mask : Option (List Nat))
    (flags : BarReadlineFlags) : RlState → List Event → Outcome
  | s, [] => Outcome.running s
  | s, e :: es =>
    match iteration charSigned bufSize mask flags s e with
    | Step.next s1 => loop charSigned bufSize mask flags s1 es
    | Step.ret n s1 => Outcome.returned n s1 es
    | Step.fault => Outcome.outOfBounds

/-- The state after `memset (buf, 0, bufSize)`. -/
def initState (bufSize : Nat) (input : BarReadlineFds) : RlState :=
  { buf := List.replicate bufSize 0, bufPos := 0, bufLen := 0, escapeState := 0,
    out := [], input := input }

/-- The function `BarReadline`.  The pointers `buf` and `input` are not null
in the embedding; `assert (bufSize > 0)` is kept. -/
def BarReadline (charSigned : Bool) (bufSize : Nat) (mask : Option (List Nat))
    (input : BarReadlineFds) (flags : BarReadlineFlags) (events : List Event) : Outcome :=
  if bufSize = 0 then Outcome.assertFailed
  else loop charSigned bufSize mask flags (initState bufSize input) events

/-- The function `BarReadlineStr`. -/
def BarReadlineStr (charSigned : Bool) (bufSize : Nat) (input : BarReadlineFds)
    (flags : BarReadlineFlags) (events : List Event) : Outcome :=
  BarReadline charSigned bufSize none input flags events

/-- The bytes of a C string stored in `buf`: those before the first zero. -/
def cString (buf : List Nat) : List Nat :=
  buf.takeWhile (fun b => b != 0)

/-- The C library predicate `isspace` in the C locale. -/
def isspace (c : Nat) : Bool :=
  c == 32 || (decide (9 ≤ c) && decide (c ≤ 13))

/-- The C library predicate `isdigit`. -/
def isdigit (c : Nat) : Bool :=
  decide (48 ≤ c) && decide (c ≤ 57)

/-- The value of the leading decimal digits of a string, `acc` being the value
of the digits already read. -/
def digitsValue : List Nat → Nat → Nat
  | [], acc => acc
  | c :: cs, acc => if isdigit c then digitsValue cs (10 * acc + (c - 48)) else acc

/-- The largest `int` (32 bits). -/
def INT_MAX : Int := 2147483647

/-- The smallest `int` (32 bits). -/
def INT_MIN : Int := -2147483648

/-- The C library function `atoi`, which is not code of this repository, as
ISO C and section 4.3 of the specification describe it: leading white space is
skipped, a sign is optional, the conversion stops at the first byte that is
not a digit, and no digits give 0.  `none` when the value is not representable
in an `int`, where ISO C leaves the behaviour undefined. -/
def atoi (str : List Nat) : Option Int :=
  let v : Int :=
    match str.dropWhile isspace with
    | 45 :: t => -(digitsValue t 0 : Int)
    | 43 :: t => (digitsValue t 0 : Int)
    | t => (digitsValue t 0 : Int)
  if INT_MIN ≤ v ∧ v ≤ INT_MAX then some v else none

/-- The mask `"0123456789"`. -/
def digitMask : List Nat := [48, 49, 50, 51, 52, 53, 54, 55, 56, 57]

/-- The mask `"yYnN"`. -/
def yesNoMask : List Nat := [121, 89, 110, 78]

/-- The function `BarReadlineInt`: the returned count and the value stored in
`*ret`.  `none` when the call of `BarReadline` does not return. -/
def BarReadlineInt (charSigned : Bool) (input : BarReadlineFds) (events : List Event) :
    Option (Nat × Option Int) :=
  match BarReadline charSigned 16 (some digitMask) input BAR_RL_DEFAULT events with
  | Outcome.returned rlRet s _ => some (rlRet, atoi (cString s.buf))
  | _ => none

/-- The function `BarReadlineYesNo`.  `none` when the call of `BarReadline`
does not return. -/
def BarReadlineYesNo (charSigned : Bool) (d : Bool) (input : BarReadlineFds)
    (events : List Event) : Option Bool :=
  match BarReadline charSigned 2 (some yesNoMask) input BAR_RL_DEFAULT events with
  | Outcome.returned _ s _ =>
    match s.buf[0]? with
    | some b => some (b == 121 || b == 89 || (d && b == 0))
    | none => none
  | _ => none

/-- The events of `bytes` arriving one after the other, each read with
success while `select` reports the descriptors `rset`. -/
def typed (rset : List Int) (bytes : List Nat) : List Event :=
  bytes.map (fun b => Event.ready rset (ReadResult.got b))

/-- Standard input alone, as pianobar sets it up without a control fifo. -/
def stdinOnly : BarReadlineFds :=
  { set := [STDIN_FILENO], maxfd := 1, fds0 := STDIN_FILENO, fds1 := -1 }

/-! ## Buffers that hold a line -/

/-- A buffer of `bufSize` bytes that holds `content` and zeros after it. -/
def fill (bufSize : Nat) (content : List Nat) : List Nat :=
  content ++ List.replicate (bufSize - content.length) 0

/-- The state of the editor when `content` has been entered. -/
def holding (bufSize : Nat) (content : List Nat) (esc : Nat) (out : List Nat)
    (input : BarReadlineFds) : RlState :=
  { buf := fill bufSize content, bufPos := content.length, bufLen := content.length,
    escapeState := esc, out := out, input := input }

/-- The line held by a state: the first `bufLen` bytes of the buffer. -/
def content (s : RlState) : List Nat :=
  s.buf.take s.bufLen

/-- The invariant of the loop of `BarReadline`: the position is the length,
the length is below the capacity, the buffer is the line followed by zeros up
to the capacity, and every byte of the line is non-zero and passes the mask. -/
def Inv (bufSize : Nat) (mask : Option (List Nat)) (s : RlState) : Prop :=
  s.bufPos = s.bufLen ∧ s.bufLen < bufSize ∧ s.buf = fill bufSize (content s) ∧
    ∀ b ∈ content s, b ≠ 0 ∧ maskRejects mask b = false

/-- The invariant after one step: it holds in the next state, and a returned
count is the length of the line. -/
def StepInv (bufSize : Nat) (mask : Option (List Nat)) : Step → Prop
  | Step.next s => Inv bufSize mask s
  | Step.ret n s => Inv bufSize mask s ∧ n = s.bufLen
  | Step.fault => True

/-- The invariant after a call has consumed the events `evs`: it holds in the
state reached, and a count returned when no `select` failed is the length of
the line. -/
def OutcomeInv (bufSize : Nat) (mask : Option (List Nat)) (evs : List Event) :
    Outcome → Prop
  | Outcome.running s => Inv bufSize mask s
  | Outcome.returned n s _ => Inv bufSize mask s ∧ (Event.selectFail ∉ evs → n = s.bufLen)
  | Outcome.assertFailed => True
  | Outcome.outOfBounds => True

/-- The outcome of a loop that goes on with the events `more` after the outcome
`o` of a first part of the events. -/
def resume (charSigned : Bool) (bufSize : Nat) (mask : Option (List Nat))
    (flags : BarReadlineFlags) (more : List Event) : Outcome → Outcome
  | Outcome.running s => loop charSigned bufSize mask flags s more
  | Outcome.returned n s rest => Outcome.returned n s (rest ++ more)
  | Outcome.assertFailed => Outcome.assertFailed
  | Outcome.outOfBounds => Outcome.outOfBounds

/-- A byte that reaches the mask test of the `default` case: it is not
`<= 0x1F` as a `char` and is neither 126 nor 127. -/
def printable (charSigned : Bool) (b : Nat) : Bool :=
  !decide (charVal charSigned b ≤ 0x1F) && b != 126 && b != 127

/-- A byte that is entered into the buffer when there is room and no escape
sequence is being filtered. -/
def accepted (charSigned : Bool) (mask : Option (List Nat)) (b : Nat) : Bool :=
  printable charSigned b && !maskRejects mask b

/-- The echo of the bytes `st` after the output `out`. -/
def echo (flags : BarReadlineFlags) (out st : List Nat) : List Nat :=
  if flags.noecho then out else out ++ st

/-- The subsequence of `bs` made of the members of the mask, all of `bs` when
no mask is configured. -/
def keep (mask : Option (List Nat)) (bs : List Nat) : List Nat :=
  match mask with
  | none => bs
  | some m => bs.filter (fun b => m.contains b)

/-- The state a call is in when it waits or has returned. -/
def reached : Outcome → Option RlState
  | Outcome.running s => some s
  | Outcome.returned _ s _ => some s
  | Outcome.assertFailed => none
  | Outcome.outOfBounds => none

/-- The decimal value of a string of digits, 0 for the empty string. -/
def decimalValue (ds : List Nat) : Nat :=
  ds.foldl (fun acc d => 10 * acc + (d - 48)) 0

/-- Standard input and a control fifo on descriptor 5, as pianobar sets the
input up when a fifo is configured. -/
def fifoInput : BarReadlineFds :=
  { set := [STDIN_FILENO, 5], maxfd := 6, fds0 := STDIN_FILENO, fds1 := 5 }

/-- The input after `FD_CLR (STDIN_FILENO, &input->set)`. -/
def withoutStdin (input : BarReadlineFds) : BarReadlineFds :=
  { input with set := input.set.filter (fun fd => fd != STDIN_FILENO) }

/-- The step `r` with the escape state of its state set to `e`. -/
def setEscape (e : Nat) : Step → Step
  | Step.next s => Step.next { s with escapeState := e }
  | Step.ret n s => Step.ret n { s with escapeState := e }
  | Step.fault => Step.fault

/-- The output of a step made without echo in a state whose output is `o`:
nothing is added when the loop goes on, one newline when the function
returns. -/
def QuietStep (o : List Nat) : Step → Prop
  | Step.next s => s.out = o
  | Step.ret _ s => s.out = o ++ [10]
  | Step.fault => True

/-- An event whose byte, read or stale, is a byte: below 256. -/
def wellFormed : Event → Bool
  | Event.selectFail => true
  | Event.ready _ (ReadResult.got b) => decide (b < 256)
  | Event.ready _ (ReadResult.failed stale) => decide (stale < 256)

/-- Every byte of the line held by a state is ASCII. -/
def AsciiLine (s : RlState) : Prop :=
  ∀ b ∈ content s, BarReadlineIsAscii b = true

/-- A step that stays inside the buffer and, when the loop goes on, leaves a
line of ASCII bytes. -/
def SafeStep : Step → Prop
  | Step.next s => AsciiLine s
  | Step.ret _ _ => True
  | Step.fault => False

/-! ## Lists -/

theorem getElem?_at (pre : List Nat) (x : Nat) (tail : List Nat) :
    (pre ++ x :: tail)[pre.length]? = some x := by
  rw [List.getElem?_append_right (Nat.le_refl _)]
  simp

theorem getElem?_mid (pre : List Nat) (x y : Nat) (tail : List Nat) :
    (pre ++ x :: y :: tail)[pre.length + 1]? = some y := by
  have h := getElem?_at (pre ++ [x]) y tail
  simpa using h

theorem set_at (pre : List Nat) (x y : Nat) (tail : List Nat) :
    (pre ++ x :: tail).set pre.length y = pre ++ y :: tail := by
  simp

theorem fill_length (bufSize : Nat) (content : List Nat) (h : content.length ≤ bufSize) :
    (fill bufSize content).length = bufSize := by
  simp [fill]
  omega

theorem fill_eq (bufSize : Nat) (content : List Nat) (h : content.length < bufSize) :
    fill bufSize content
      = content ++ 0 :: List.replicate (bufSize - content.length - 1) 0 := by
  obtain ⟨k, hk⟩ : ∃ k, bufSize - content.length = k + 1 := ⟨bufSize - content.length - 1, by omega⟩
  have hk1 : bufSize - content.length - 1 = k := by omega
  rw [fill, hk1, hk, List.replicate_succ]

theorem fill_split (bufSize : Nat) (c d : List Nat) (h : (c ++ d).length < bufSize) :
    c ++ (List.replicate d.length 0 ++ 0 :: List.replicate (bufSize - (c ++ d).length - 1) 0)
      = fill bufSize c := by
  obtain ⟨k, hk⟩ : ∃ k, bufSize - (c ++ d).length - 1 = k := ⟨_, rfl⟩
  have e : bufSize - c.length = d.length + (k + 1) := by
    simp at h hk
    omega
  rw [fill, e, hk, List.replicate_add, List.replicate_succ]

/-! ## Deleting at the end of the line -/

theorem moveLeft_end (pre : List Nat) (x : Nat) (tail : List Nat) :
    BarReadlineMoveLeft (pre ++ x :: 0 :: tail) (pre.length + 1) (pre.length + 1)
      = some (pre ++ 0 :: 0 :: tail, pre.length, pre.length) := by
  unfold BarReadlineMoveLeft
  have h1 : pre.length + 1 - (pre.length + 1 - 1) = 1 := by omega
  have h2 : pre.length + 1 - 1 = pre.length := by omega
  rw [if_neg (by omega), h1, h2]
  unfold moveLeftLoop
  rw [getElem?_mid]
  simp [moveLeftLoop]

theorem deleteUtf8Content_stop (pre : List Nat) (x : Nat) (tail : List Nat) (n : Nat)
    (hx : BarReadlineIsUtf8Content x = false) :
    deleteUtf8Content (pre.length + 1) (pre ++ x :: tail) n
      = some (pre ++ x :: tail, pre.length + 1, n) := by
  rw [deleteUtf8Content, getElem?_at]
  simp [hx]

theorem deleteUtf8Content_step (pre : List Nat) (x : Nat) (tail : List Nat)
    (hx : BarReadlineIsUtf8Content x = true) :
    deleteUtf8Content (pre.length + 1) (pre ++ x :: 0 :: tail) (pre.length + 1)
      = deleteUtf8Content pre.length (pre ++ 0 :: 0 :: tail) pre.length := by
  rw [deleteUtf8Content, getElem?_at]
  simp [hx, moveLeft_end]

/-- The content loop removes a run of continuation bytes that follows a byte
of another kind, and stops there. -/
theorem deleteUtf8Content_run (pre : List Nat) (x : Nat)
    (hx : BarReadlineIsUtf8Content x = false) (conts : List Nat) :
    ∀ tail : List Nat, (∀ c ∈ conts, BarReadlineIsUtf8Content c = true) →
      deleteUtf8Content ((pre ++ x :: conts).length) (pre ++ x :: conts ++ 0 :: tail)
          ((pre ++ x :: conts).length)
        = some (pre ++ x :: (List.replicate conts.length 0 ++ 0 :: tail),
            pre.length + 1, pre.length + 1) := by
  induction conts using List.reverseRecOn with
  | nil =>
    intro tail _
    simpa using deleteUtf8Content_stop pre x (0 :: tail) (pre.length + 1) hx
  | append_singleton cs c ih =>
    intro tail hall
    have hc : BarReadlineIsUtf8Content c = true := hall c (by simp)
    have hcs : ∀ c ∈ cs, BarReadlineIsUtf8Content c = true :=
      fun c1 h1 => hall c1 (by simp [h1])
    have e1 : (pre ++ x :: (cs ++ [c])).length = (pre ++ x :: cs).length + 1 := by
      simp
      omega
    have e2 : pre ++ x :: (cs ++ [c]) ++ 0 :: tail = (pre ++ x :: cs) ++ c :: 0 :: tail := by
      simp
    rw [e1, e2, deleteUtf8Content_step _ _ _ hc, ih (0 :: tail) hcs]
    have e3 : List.replicate (cs ++ [c]).length 0 ++ 0 :: tail
        = List.replicate cs.length 0 ++ 0 :: 0 :: tail := by
      have : (cs ++ [c]).length = cs.length + 1 := by simp
      rw [this, List.replicate_succ']
      simp
    rw [e3]

theorem zeros_shift (n : Nat) (t : List Nat) :
    List.replicate n 0 ++ 0 :: t = 0 :: (List.replicate n 0 ++ t) := by
  induction n with
  | zero => rfl
  | succ k ih => simp [List.replicate_succ, ih]

theorem start_not_ascii (x : Nat) (h : BarReadlineIsUtf8Start x = true) :
    BarReadlineIsAscii x = false := by
  unfold BarReadlineIsUtf8Start at h
  unfold BarReadlineIsAscii
  revert h
  cases (x &&& 1 <<< 7 != 0) <;> simp

theorem start_not_content (x : Nat) (h : BarReadlineIsUtf8Start x = true) :
    BarReadlineIsUtf8Content x = false := by
  unfold BarReadlineIsUtf8Start at h
  unfold BarReadlineIsUtf8Content
  revert h
  cases (x &&& 1 <<< 7 != 0) <;> cases (x &&& 1 <<< 6 != 0) <;> simp

theorem content_not_ascii (x : Nat) (h : BarReadlineIsUtf8Content x = true) :
    BarReadlineIsAscii x = false := by
  unfold BarReadlineIsUtf8Content at h
  unfold BarReadlineIsAscii
  revert h
  cases (x &&& 1 <<< 7 != 0) <;> simp

theorem deleteLast_ascii (pre : List Nat) (x : Nat) (tail : List Nat)
    (hx : BarReadlineIsAscii x = true) :
    deleteLast (pre ++ x :: 0 :: tail) (pre.length + 1) (pre.length + 1)
      = some (pre ++ 0 :: 0 :: tail, pre.length, pre.length) := by
  unfold deleteLast
  have h2 : pre.length + 1 - 1 = pre.length := by omega
  rw [h2, getElem?_at]
  simp [hx, moveLeft_end]

theorem deleteUtf8Start_start (pre : List Nat) (x : Nat) (tail : List Nat)
    (hx : BarReadlineIsUtf8Start x = true) :
    deleteUtf8Start (pre ++ x :: 0 :: tail) (pre.length + 1) (pre.length + 1)
      = some (pre ++ 0 :: 0 :: tail, pre.length, pre.length) := by
  unfold deleteUtf8Start
  have h2 : pre.length + 1 - 1 = pre.length := by omega
  rw [if_neg (by omega), h2, getElem?_at]
  simp [hx, moveLeft_end]

theorem deleteUtf8Start_other (pre : List Nat) (x : Nat) (tail : List Nat) (n : Nat)
    (hx : BarReadlineIsUtf8Start x = false) :
    deleteUtf8Start (pre ++ x :: tail) (pre.length + 1) n
      = some (pre ++ x :: tail, pre.length + 1, n) := by
  unfold deleteUtf8Start
  have h2 : pre.length + 1 - 1 = pre.length := by omega
  rw [if_neg (by omega), h2, getElem?_at]
  simp [hx]

/-- The last byte of a lead byte followed by continuation bytes is not ASCII. -/
theorem last_of_sequence (pre : List Nat) (x : Nat) (conts tail : List Nat)
    (hx : BarReadlineIsUtf8Start x = true)
    (hall : ∀ c ∈ conts, BarReadlineIsUtf8Content c = true) :
    ∃ last, (pre ++ x :: conts ++ 0 :: tail)[(pre ++ x :: conts).length - 1]? = some last
      ∧ BarReadlineIsAscii last = false := by
  rcases List.eq_nil_or_concat conts with h | ⟨cs, c, h⟩
  · subst h
    refine ⟨x, ?_, start_not_ascii x hx⟩
    have e : (pre ++ [x]).length - 1 = pre.length := by simp
    simpa [e] using getElem?_at pre x (0 :: tail)
  · subst h
    simp only [List.concat_eq_append] at hall ⊢
    refine ⟨c, ?_, content_not_ascii c (hall c (by simp))⟩
    have e : (pre ++ x :: (cs ++ [c])).length - 1 = (pre ++ x :: cs).length := by
      simp
    have e2 : pre ++ x :: (cs ++ [c]) ++ 0 :: tail = (pre ++ x :: cs) ++ c :: 0 :: tail := by
      simp
    rw [e, e2, getElem?_at]

/-- Backspace on a lead byte followed by continuation bytes removes them all. -/
theorem deleteLast_sequence (pre : List Nat) (x : Nat) (conts tail : List Nat)
    (hx : BarReadlineIsUtf8Start x = true)
    (hall : ∀ c ∈ conts, BarReadlineIsUtf8Content c = true) :
    deleteLast (pre ++ x :: conts ++ 0 :: tail) (pre ++ x :: conts).length
        (pre ++ x :: conts).length
      = some (pre ++ 0 :: 0 :: (List.replicate conts.length 0 ++ tail),
          pre.length, pre.length) := by
  obtain ⟨last, h1, h2⟩ := last_of_sequence pre x conts tail hx hall
  unfold deleteLast
  rw [h1]
  simp only [h2, Bool.false_eq_true, if_false]
  rw [deleteUtf8Content_run pre x (start_not_content x hx) conts tail hall]
  simp only [zeros_shift]
  exact deleteUtf8Start_start pre x _ hx

/-- The content loop on any line: it fails, or it removes a run of bytes at the
end and stops on a byte it keeps. -/
theorem deleteUtf8Content_any (content : List Nat) :
    ∀ tail : List Nat,
      deleteUtf8Content content.length (content ++ 0 :: tail) content.length = none ∨
      ∃ c y d, content = c ++ y :: d ∧
        deleteUtf8Content content.length (content ++ 0 :: tail) content.length
          = some (c ++ y :: (List.replicate d.length 0 ++ 0 :: tail),
              c.length + 1, c.length + 1) := by
  induction content using List.reverseRecOn with
  | nil =>
    intro tail
    left
    simp [deleteUtf8Content]
  | append_singleton init l ih =>
    intro tail
    have e1 : (init ++ [l]).length = init.length + 1 := by simp
    have e2 : init ++ [l] ++ 0 :: tail = init ++ l :: 0 :: tail := by simp
    rw [e1, e2]
    by_cases hl : BarReadlineIsUtf8Content l = true
    · rw [deleteUtf8Content_step init l tail hl]
      rcases ih (0 :: tail) with h | ⟨c, y, d, hc, hr⟩
      · left
        exact h
      · right
        refine ⟨c, y, d ++ [l], by simp [hc], ?_⟩
        rw [hr]
        have e3 : List.replicate (d ++ [l]).length 0 ++ 0 :: tail
            = List.replicate d.length 0 ++ 0 :: 0 :: tail := by
          have : (d ++ [l]).length = d.length + 1 := by simp
          rw [this, List.replicate_succ']
          simp
        rw [e3]
    · right
      have hl2 : BarReadlineIsUtf8Content l = false := by simpa using hl
      refine ⟨init, l, [], rfl, ?_⟩
      rw [deleteUtf8Content_stop init l (0 :: tail) (init.length + 1) hl2]
      simp

/-- Backspace on any line that is not empty: it fails, or it removes some
bytes at the end of the line and puts zeros in their place. -/
theorem deleteLast_any (content : List Nat) (hne : content ≠ []) (tail : List Nat) :
    deleteLast (content ++ 0 :: tail) content.length content.length = none ∨
    ∃ c d, content = c ++ d ∧
      deleteLast (content ++ 0 :: tail) content.length content.length
        = some (c ++ (List.replicate d.length 0 ++ 0 :: tail), c.length, c.length) := by
  rcases List.eq_nil_or_concat content with h | ⟨init, l, h⟩
  · exact absurd h hne
  · rw [List.concat_eq_append] at h
    by_cases hl : BarReadlineIsAscii l = true
    · right
      refine ⟨init, [l], h, ?_⟩
      subst h
      have e1 : (init ++ [l]).length = init.length + 1 := by simp
      have e2 : init ++ [l] ++ 0 :: tail = init ++ l :: 0 :: tail := by simp
      rw [e1, e2, deleteLast_ascii init l tail hl]
      simp
    · have hl2 : BarReadlineIsAscii l = false := by simpa using hl
      have hget : (content ++ 0 :: tail)[content.length - 1]? = some l := by
        subst h
        have e1 : (init ++ [l]).length - 1 = init.length := by simp
        have e2 : init ++ [l] ++ 0 :: tail = init ++ l :: 0 :: tail := by simp
        rw [e1, e2, getElem?_at]
      unfold deleteLast
      rw [hget]
      simp only [hl2, Bool.false_eq_true, if_false]
      rcases deleteUtf8Content_any content tail with h0 | ⟨c, y, d, hc, hr⟩
      · left
        rw [h0]
      · right
        rw [hr]
        by_cases hy : BarReadlineIsUtf8Start y = true
        · refine ⟨c, y :: d, hc, ?_⟩
          simp only [zeros_shift]
          rw [deleteUtf8Start_start c y _ hy]
          simp [List.replicate_succ, zeros_shift]
        · have hy2 : BarReadlineIsUtf8Start y = false := by simpa using hy
          refine ⟨c ++ [y], d, by simp [hc], ?_⟩
          simp only []
          rw [deleteUtf8Start_other c y _ _ hy2]
          simp

/-! ## The invariant of the loop -/

theorem take_fill (bufSize : Nat) (c : List Nat) :
    (fill bufSize c).take c.length = c := by
  simp [fill]

theorem inv_intro (bufSize : Nat) (mask : Option (List Nat)) (s : RlState) (c : List Nat)
    (hlen : c.length < bufSize) (hbuf : s.buf = fill bufSize c)
    (hpos : s.bufPos = c.length) (hl : s.bufLen = c.length)
    (hall : ∀ b ∈ c, b ≠ 0 ∧ maskRejects mask b = false) : Inv bufSize mask s := by
  have hc : content s = c := by
    unfold content
    rw [hbuf, hl, take_fill]
  refine ⟨by omega, by omega, ?_, ?_⟩
  · rw [hc]
    exact hbuf
  · rw [hc]
    exact hall

theorem inv_length (bufSize : Nat) (mask : Option (List Nat)) (s : RlState)
    (h : Inv bufSize mask s) : (content s).length = s.bufLen ∧ s.buf.length = bufSize := by
  obtain ⟨_, h2, h3, _⟩ := h
  have hle : (content s).length ≤ s.bufLen := by
    unfold content
    simp
  have hb : s.buf.length = bufSize := by
    rw [h3, fill_length bufSize _ (by omega)]
  refine ⟨?_, hb⟩
  unfold content
  simp
  omega

theorem inv_congr (bufSize : Nat) (mask : Option (List Nat)) (s s1 : RlState)
    (h : Inv bufSize mask s) (hb : s1.buf = s.buf) (hp : s1.bufPos = s.bufPos)
    (hl : s1.bufLen = s.bufLen) : Inv bufSize mask s1 := by
  unfold Inv content at *
  rw [hb, hp, hl]
  exact h

theorem fill_set (bufSize : Nat) (c : List Nat) (x : Nat) (h : c.length < bufSize) :
    (fill bufSize c).set c.length x = fill bufSize (c ++ [x]) := by
  rw [fill_eq bufSize c h, set_at]
  simp [fill, Nat.sub_sub]

theorem charVal_pos (charSigned : Bool) (chr : Nat) (h : ¬ charVal charSigned chr ≤ 0x1F) :
    chr ≠ 0 := by
  intro h0
  subst h0
  simp [charVal] at h

theorem appendChr_inv (bufSize : Nat) (mask : Option (List Nat)) (flags : BarReadlineFlags)
    (s : RlState) (chr : Nat) (h : Inv bufSize mask s) (h0 : chr ≠ 0)
    (hm : maskRejects mask chr = false) :
    StepInv bufSize mask (appendChr bufSize flags s chr) := by
  obtain ⟨hcl, hbl⟩ := inv_length bufSize mask s h
  obtain ⟨h1, h2, h3, h4⟩ := h
  have hnew : s.bufPos < bufSize - 1 →
      ∀ s1 : RlState, s1.buf = s.buf.set s.bufPos chr → s1.bufPos = s.bufPos + 1 →
        s1.bufLen = s.bufLen + 1 → Inv bufSize mask s1 := by
    intro hlt s1 e1 e2 e3
    apply inv_intro bufSize mask s1 (content s ++ [chr])
    · simp
      omega
    · rw [e1, h3, h1, ← hcl, fill_set bufSize _ chr (by omega)]
    · simp
      omega
    · simp
      omega
    · intro b hb
      rcases List.mem_append.1 hb with hb1 | hb1
      · exact h4 b hb1
      · simp at hb1
        subst hb1
        exact ⟨h0, hm⟩
  unfold appendChr
  split
  · rename_i hlt
    rw [if_pos (by omega)]
    split
    · exact ⟨hnew hlt _ rfl rfl rfl, rfl⟩
    · exact hnew hlt _ rfl rfl rfl
  · exact ⟨h1, h2, h3, h4⟩

theorem defaultCase_inv (charSigned : Bool) (bufSize : Nat) (mask : Option (List Nat))
    (flags : BarReadlineFlags) (s : RlState) (chr : Nat) (h : Inv bufSize mask s) :
    StepInv bufSize mask (defaultCase charSigned bufSize mask flags s chr) := by
  unfold defaultCase
  split
  · exact h
  · rename_i hc
    split
    · exact inv_congr bufSize mask s _ h rfl rfl rfl
    · split
      · exact inv_congr bufSize mask s _ h rfl rfl rfl
      · split
        · exact h
        · rename_i hm
          exact appendChr_inv bufSize mask flags s chr h (charVal_pos charSigned chr hc)
            (by simpa using hm)

theorem inv_elim (bufSize : Nat) (mask : Option (List Nat)) (s : RlState)
    (h : Inv bufSize mask s) :
    ∃ c : List Nat, c.length < bufSize ∧ s.buf = fill bufSize c ∧ s.bufPos = c.length ∧
      s.bufLen = c.length ∧ ∀ b ∈ c, b ≠ 0 ∧ maskRejects mask b = false := by
  obtain ⟨hcl, _⟩ := inv_length bufSize mask s h
  obtain ⟨h1, h2, h3, h4⟩ := h
  exact ⟨content s, by omega, h3, by omega, by omega, h4⟩

theorem backspace_inv (bufSize : Nat) (mask : Option (List Nat)) (flags : BarReadlineFlags)
    (s : RlState) (h : Inv bufSize mask s) :
    StepInv bufSize mask (backspace flags s) := by
  obtain ⟨c, hlt, hbuf, hpos, hlen, hall⟩ := inv_elim bufSize mask s h
  obtain ⟨buf, pos, len, esc, out, input⟩ := s
  simp only at hbuf hpos hlen
  subst hbuf hpos hlen
  unfold backspace
  simp only
  split
  · rename_i hp
    have hne : c ≠ [] := by
      intro h0
      subst h0
      simp at hp
    rw [fill_eq bufSize c hlt]
    rcases deleteLast_any c hne (List.replicate (bufSize - c.length - 1) 0) with h0 | ⟨c1, d, hc, hr⟩
    · rw [h0]
      trivial
    · rw [hr]
      simp only
      have hlt1 : (c1 ++ d).length < bufSize := by
        rw [← hc]
        exact hlt
      apply inv_intro bufSize mask _ c1
      · simp at hlt1
        omega
      · simp only
        rw [hc, fill_split bufSize c1 d hlt1]
      · rfl
      · rfl
      · intro b hb
        exact hall b (by rw [hc]; exact List.mem_append_left d hb)
  · rename_i hp
    have h0 : c = [] := by
      cases c with
      | nil => rfl
      | cons a l => simp at hp
    subst h0
    have hz : (fill bufSize [])[([] : List Nat).length]? = some 0 := by
      rw [fill_eq bufSize [] hlt]
      exact getElem?_at [] 0 _
    rw [hz]
    simp only [bne_self_eq_false, Bool.false_eq_true, if_false]
    exact h

theorem dispatch_inv (charSigned : Bool) (bufSize : Nat) (mask : Option (List Nat))
    (flags : BarReadlineFlags) (s : RlState) (chr : Nat) (h : Inv bufSize mask s) :
    StepInv bufSize mask (dispatch charSigned bufSize mask flags s chr) := by
  unfold dispatch
  split
  · exact ⟨inv_congr bufSize mask s _ h rfl rfl rfl, rfl⟩
  · split
    · exact ⟨inv_congr bufSize mask s _ h rfl rfl rfl, rfl⟩
    · split
      · exact inv_congr bufSize mask s _ h rfl rfl rfl
      · split
        · exact h
        · split
          · exact backspace_inv bufSize mask flags s h
          · exact defaultCase_inv charSigned bufSize mask flags s chr h

theorem initState_inv (bufSize : Nat) (mask : Option (List Nat)) (input : BarReadlineFds)
    (h : 0 < bufSize) : Inv bufSize mask (initState bufSize input) := by
  apply inv_intro bufSize mask _ []
  · exact h
  · simp [initState, fill]
  · rfl
  · rfl
  · intro b hb
    simp at hb

theorem iteration_inv (charSigned : Bool) (bufSize : Nat) (mask : Option (List Nat))
    (flags : BarReadlineFlags) (s : RlState) (rset : List Int) (r : ReadResult)
    (h : Inv bufSize mask s) :
    StepInv bufSize mask (iteration charSigned bufSize mask flags s (Event.ready rset r)) := by
  cases r with
  | got b => exact dispatch_inv charSigned bufSize mask flags s b h
  | failed stale =>
    simp only [iteration]
    split
    · exact inv_congr bufSize mask s _ h rfl rfl rfl
    · exact dispatch_inv charSigned bufSize mask flags s stale h

theorem loop_inv (charSigned : Bool) (bufSize : Nat) (mask : Option (List Nat))
    (flags : BarReadlineFlags) (evs : List Event) :
    ∀ s : RlState, Inv bufSize mask s →
      OutcomeInv bufSize mask evs (loop charSigned bufSize mask flags s evs) := by
  induction evs with
  | nil =>
    intro s h
    exact h
  | cons e es ih =>
    intro s h
    cases e with
    | selectFail =>
      refine ⟨h, ?_⟩
      intro hno
      exact absurd (List.mem_cons_self _ _) hno
    | ready rset r =>
      have hstep := iteration_inv charSigned bufSize mask flags s rset r h
      unfold loop
      generalize iteration charSigned bufSize mask flags s (Event.ready rset r) = st at hstep
      cases st with
      | next s1 =>
        have h1 := ih s1 hstep
        simp only
        generalize loop charSigned bufSize mask flags s1 es = o at h1
        cases o with
        | running s2 => exact h1
        | returned n s2 rest =>
          refine ⟨h1.1, ?_⟩
          intro hno
          exact h1.2 (fun hm => hno (List.mem_cons_of_mem _ hm))
        | assertFailed => trivial
        | outOfBounds => trivial
      | ret n s1 =>
        exact ⟨hstep.1, fun _ => hstep.2⟩
      | fault => trivial

theorem loop_append (charSigned : Bool) (bufSize : Nat) (mask : Option (List Nat))
    (flags : BarReadlineFlags) (a b : List Event) :
    ∀ s : RlState, loop charSigned bufSize mask flags s (a ++ b)
      = resume charSigned bufSize mask flags b (loop charSigned bufSize mask flags s a) := by
  induction a with
  | nil =>
    intro s
    rfl
  | cons e es ih =>
    intro s
    simp only [List.cons_append, loop]
    cases iteration charSigned bufSize mask flags s e with
    | next s1 => exact ih s1
    | ret n s1 => rfl
    | fault => rfl

theorem loop_rest_length (charSigned : Bool) (bufSize : Nat) (mask : Option (List Nat))
    (flags : BarReadlineFlags) (evs : List Event) :
    ∀ (s s1 : RlState) (n : Nat) (rest : List Event),
      loop charSigned bufSize mask flags s evs = Outcome.returned n s1 rest →
      rest.length < evs.length := by
  induction evs with
  | nil =>
    intro s s1 n rest h
    simp [loop] at h
  | cons e es ih =>
    intro s s1 n rest h
    simp only [loop] at h
    cases hst : iteration charSigned bufSize mask flags s e with
    | next s2 =>
      rw [hst] at h
      have := ih s2 s1 n rest h
      simp
      omega
    | ret m s2 =>
      rw [hst] at h
      simp only [Outcome.returned.injEq] at h
      rw [← h.2.2]
      simp
    | fault =>
      rw [hst] at h
      simp at h

/-- A call that returns leaving `rest` unread returns in the same way on the
events before `rest` alone. -/
theorem loop_consumed (charSigned : Bool) (bufSize : Nat) (mask : Option (List Nat))
    (flags : BarReadlineFlags) (s s1 : RlState) (n : Nat) (consumed rest : List Event)
    (h : loop charSigned bufSize mask flags s (consumed ++ rest) = Outcome.returned n s1 rest) :
    loop charSigned bufSize mask flags s consumed = Outcome.returned n s1 [] := by
  rw [loop_append] at h
  cases ho : loop charSigned bufSize mask flags s consumed with
  | running s2 =>
    rw [ho] at h
    have := loop_rest_length charSigned bufSize mask flags rest s2 s1 n rest h
    omega
  | returned m s2 r =>
    rw [ho] at h
    simp only [resume, Outcome.returned.injEq] at h
    obtain ⟨h1, h2, h3⟩ := h
    have hr : r = [] := by
      have hl := congrArg List.length h3
      simp at hl
      exact hl
    rw [h1, h2, hr]
  | assertFailed =>
    rw [ho] at h
    simp [resume] at h
  | outOfBounds =>
    rw [ho] at h
    simp [resume] at h

theorem cString_line (c tail : List Nat) (h : ∀ b ∈ c, b ≠ 0) :
    cString (c ++ 0 :: tail) = c := by
  induction c with
  | nil => simp [cString]
  | cons a l ih =>
    have ha : a ≠ 0 := h a (by simp)
    have hl : ∀ b ∈ l, b ≠ 0 := fun b hb => h b (by simp [hb])
    have ih1 := ih hl
    unfold cString at ih1 ⊢
    simp [List.takeWhile_cons, ha, ih1]

/-- What the invariant says about the buffer, index by index. -/
theorem inv_line (bufSize : Nat) (mask : Option (List Nat)) (s : RlState)
    (h : Inv bufSize mask s) :
    s.bufPos = s.bufLen ∧ s.bufLen ≤ bufSize - 1 ∧ s.buf.length = bufSize ∧
      s.buf[s.bufLen]? = some 0 ∧
      (∀ i, i < s.bufLen → ∃ v, s.buf[i]? = some v ∧ v ≠ 0) ∧
      (∀ i, s.bufLen ≤ i → i < bufSize → s.buf[i]? = some 0) ∧
      cString s.buf = content s := by
  obtain ⟨hcl, hbl⟩ := inv_length bufSize mask s h
  obtain ⟨c, hlt, hbuf, hpos, hlen, hall⟩ := inv_elim bufSize mask s h
  have hc : content s = c := by
    unfold content
    rw [hbuf, hlen, take_fill]
  refine ⟨by omega, by omega, hbl, ?_, ?_, ?_, ?_⟩
  · rw [hbuf, hlen, fill_eq bufSize c hlt, getElem?_at]
  · intro i hi
    have hi2 : i < c.length := by omega
    refine ⟨c.get ⟨i, hi2⟩, ?_, (hall _ (List.get_mem c i hi2)).1⟩
    rw [hbuf, fill, List.getElem?_append_left hi2]
    exact List.getElem?_eq_getElem hi2
  · intro i h1 h2
    rw [hbuf, fill, List.getElem?_append_right (by omega)]
    rw [List.getElem?_replicate]
    rw [if_pos (by omega)]
  · rw [hc, hbuf, fill_eq bufSize c hlt]
    exact cString_line c _ (fun b hb => (hall b hb).1)

/-! ## The contract of `BarReadline` -/

/-- On every run that the model follows to a return, that is, on which no
access leaves the buffer: when `BarReadline` returns `n` after consuming events
none of which is a failure of `select`, then `n <= capacity - 1`, `buf[n] == 0`
and `buf[i] != 0` for every `i < n`. -/
theorem BarReadline_count_is_strlen (charSigned : Bool) (bufSize : Nat)
    (mask : Option (List Nat)) (input : BarReadlineFds) (flags : BarReadlineFlags)
    (consumed rest : List Event) (n : Nat) (s : RlState)
    (hcap : 0 < bufSize) (hno : Event.selectFail ∉ consumed)
    (hret : BarReadline charSigned bufSize mask input flags (consumed ++ rest)
      = Outcome.returned n s rest) :
    n ≤ bufSize - 1 ∧ s.buf.length = bufSize ∧ s.buf[n]? = some 0 ∧
      (∀ i, i < n → ∃ v, s.buf[i]? = some v ∧ v ≠ 0) ∧
      (cString s.buf).length = n := by
  unfold BarReadline at hret
  rw [if_neg (by omega)] at hret
  have hc := loop_consumed charSigned bufSize mask flags _ s n consumed rest hret
  have hinv := loop_inv charSigned bufSize mask flags consumed _
    (initState_inv bufSize mask input hcap)
  rw [hc] at hinv
  obtain ⟨hi, hn⟩ := hinv
  have hn1 := hn hno
  obtain ⟨_, h2, h3, h4, h5, _, h7⟩ := inv_line bufSize mask s hi
  obtain ⟨hcl, _⟩ := inv_length bufSize mask s hi
  rw [hn1]
  exact ⟨h2, h3, h4, h5, by rw [h7, hcl]⟩

/-- The line `ab` ended by a newline, capacity 4. -/
theorem BarReadline_count_is_strlen_witness :
    (0 < 4 ∧ Event.selectFail ∉ typed [0] [97, 98, 10]) ∧
    (2 ≤ 4 - 1 ∧ ([97, 98, 0, 0] : List Nat).length = 4 ∧
      ([97, 98, 0, 0] : List Nat)[2]? = some 0 ∧
      (∀ i, i < 2 → ∃ v, ([97, 98, 0, 0] : List Nat)[i]? = some v ∧ v ≠ 0) ∧
      (cString [97, 98, 0, 0]).length = 2) :=
  ⟨⟨by decide, by decide⟩,
    BarReadline_count_is_strlen true 4 none stdinOnly BAR_RL_DEFAULT
      (typed [0] [97, 98, 10]) [] 2
      { buf := [97, 98, 0, 0], bufPos := 2, bufLen := 2, escapeState := 0,
        out := [97, 98, 10], input := stdinOnly }
      (by decide) (by decide) (by decide)⟩

/-! ## Feeding bytes -/

theorem printable_spec (charSigned : Bool) (b : Nat) (h : printable charSigned b = true) :
    ¬ charVal charSigned b ≤ 0x1F ∧ b ≠ 4 ∧ b ≠ 10 ∧ b ≠ 27 ∧ b ≠ 126 ∧ b ≠ 8 ∧ b ≠ 127 := by
  unfold printable at h
  simp only [Bool.and_eq_true, Bool.not_eq_true', decide_eq_false_iff_not, bne_iff_ne] at h
  obtain ⟨⟨h1, h2⟩, h3⟩ := h
  refine ⟨h1, ?_, ?_, ?_, h2, ?_, h3⟩ <;>
  · intro h0
    subst h0
    cases charSigned <;> simp [charVal] at h1

theorem dispatch_store (charSigned : Bool) (bufSize : Nat) (mask : Option (List Nat))
    (flags : BarReadlineFlags) (c out : List Nat) (input : BarReadlineFds) (b : Nat)
    (hb : accepted charSigned mask b = true) (hroom : c.length < bufSize - 1)
    (hfr : flags.fullreturn = true → c.length + 1 < bufSize - 1) :
    dispatch charSigned bufSize mask flags (holding bufSize c 0 out input) b
      = Step.next (holding bufSize (c ++ [b]) 0 (echo flags out [b]) input) := by
  unfold accepted at hb
  simp only [Bool.and_eq_true, Bool.not_eq_true'] at hb
  obtain ⟨hp, hm⟩ := hb
  obtain ⟨h1, h2, h3, h4, h5, h6, h7⟩ := printable_spec charSigned b hp
  have hl : (fill bufSize c).length = bufSize := fill_length bufSize c (by omega)
  have hfull : (flags.fullreturn && decide (bufSize - 1 ≤ c.length + 1)) = false := by
    cases hf : flags.fullreturn with
    | false => rfl
    | true =>
      have := hfr hf
      simp
      omega
  unfold dispatch
  rw [if_neg h2, if_neg h3, if_neg h4, if_neg h5, if_neg (by omega)]
  unfold defaultCase
  rw [if_neg h1]
  simp only [holding]
  rw [if_neg (by omega), if_neg (by omega), if_neg (by simp [hm])]
  unfold appendChr
  simp only
  rw [hfull, if_pos hroom, if_pos (by omega), if_neg Bool.false_ne_true,
    fill_set bufSize c b (by omega)]
  simp [echo]

theorem dispatch_full (charSigned : Bool) (bufSize : Nat) (mask : Option (List Nat))
    (flags : BarReadlineFlags) (c out : List Nat) (input : BarReadlineFds) (b : Nat)
    (hb : accepted charSigned mask b = true) (hlast : c.length + 1 = bufSize - 1)
    (hfr : flags.fullreturn = true) :
    dispatch charSigned bufSize mask flags (holding bufSize c 0 out input) b
      = Step.ret (c.length + 1)
          (holding bufSize (c ++ [b]) 0 (echo flags out [b] ++ [10]) input) := by
  unfold accepted at hb
  simp only [Bool.and_eq_true, Bool.not_eq_true'] at hb
  obtain ⟨hp, hm⟩ := hb
  obtain ⟨h1, h2, h3, h4, h5, h6, h7⟩ := printable_spec charSigned b hp
  have hl : (fill bufSize c).length = bufSize := fill_length bufSize c (by omega)
  have hfull : (flags.fullreturn && decide (bufSize - 1 ≤ c.length + 1)) = true := by
    rw [hfr]
    simp
    omega
  unfold dispatch
  rw [if_neg h2, if_neg h3, if_neg h4, if_neg h5, if_neg (by omega)]
  unfold defaultCase
  rw [if_neg h1]
  simp only [holding]
  rw [if_neg (by omega), if_neg (by omega), if_neg (by simp [hm])]
  unfold appendChr
  simp only
  rw [hfull, if_pos (by omega), if_pos (by omega), if_pos rfl,
    fill_set bufSize c b (by omega)]
  simp [echo]

theorem dispatch_drop (charSigned : Bool) (bufSize : Nat) (mask : Option (List Nat))
    (flags : BarReadlineFlags) (s : RlState) (b : Nat)
    (hb : accepted charSigned mask b = true) (hesc : s.escapeState = 0)
    (hroom : bufSize - 1 ≤ s.bufPos) :
    dispatch charSigned bufSize mask flags s b = Step.next s := by
  unfold accepted at hb
  simp only [Bool.and_eq_true, Bool.not_eq_true'] at hb
  obtain ⟨hp, hm⟩ := hb
  obtain ⟨h1, h2, h3, h4, h5, h6, h7⟩ := printable_spec charSigned b hp
  unfold dispatch
  rw [if_neg h2, if_neg h3, if_neg h4, if_neg h5, if_neg (by omega)]
  unfold defaultCase
  rw [if_neg h1, if_neg (by omega), if_neg (by omega), if_neg (by simp [hm])]
  unfold appendChr
  rw [if_neg (by omega)]

theorem dispatch_reject (charSigned : Bool) (bufSize : Nat) (mask : Option (List Nat))
    (flags : BarReadlineFlags) (s : RlState) (b : Nat)
    (hb : accepted charSigned mask b = false) (hesc : s.escapeState = 0)
    (h4 : b ≠ 4) (h10 : b ≠ 10) (h27 : b ≠ 27) (h8 : b ≠ 8) (h127 : b ≠ 127) :
    dispatch charSigned bufSize mask flags s b = Step.next s := by
  unfold dispatch
  rw [if_neg h4, if_neg h10, if_neg h27]
  by_cases h126 : b = 126
  · rw [if_pos h126]
  · rw [if_neg h126, if_neg (by omega)]
    unfold defaultCase
    by_cases hc : charVal charSigned b ≤ 0x1F
    · rw [if_pos hc]
    · rw [if_neg hc, if_neg (by omega), if_neg (by omega)]
      have hm : maskRejects mask b = true := by
        unfold accepted printable at hb
        simpa [hc, h126, h127] using hb
      rw [if_pos hm]

/-- Bytes that neither end the call nor delete nor start an escape sequence,
entered from an idle state: the accepted ones are stored as long as there is
room, and echoed. -/
theorem loop_typed (charSigned : Bool) (bufSize : Nat) (mask : Option (List Nat))
    (flags : BarReadlineFlags) (input : BarReadlineFds) (rset : List Int) (bs : List Nat) :
    ∀ c out : List Nat,
      (∀ b ∈ bs, b ≠ 4 ∧ b ≠ 10 ∧ b ≠ 27 ∧ b ≠ 8 ∧ b ≠ 127) →
      (flags.fullreturn = true → c.length + bs.length < bufSize - 1) →
      loop charSigned bufSize mask flags (holding bufSize c 0 out input) (typed rset bs)
        = Outcome.running (holding bufSize
            (c ++ (bs.filter (accepted charSigned mask)).take (bufSize - 1 - c.length)) 0
            (echo flags out
              ((bs.filter (accepted charSigned mask)).take (bufSize - 1 - c.length)))
            input) := by
  induction bs with
  | nil =>
    intro c out _ _
    simp [typed, loop, echo]
  | cons b bs1 ih =>
    intro c out hall hfr
    obtain ⟨h4, h10, h27, h8, h127⟩ := hall b (by simp)
    have hall1 : ∀ x ∈ bs1, x ≠ 4 ∧ x ≠ 10 ∧ x ≠ 27 ∧ x ≠ 8 ∧ x ≠ 127 :=
      fun x hx => hall x (by simp [hx])
    have hty : typed rset (b :: bs1) = Event.ready rset (ReadResult.got b) :: typed rset bs1 := rfl
    rw [hty]
    simp only [loop, iteration]
    cases hb : accepted charSigned mask b with
    | false =>
      rw [dispatch_reject charSigned bufSize mask flags _ b hb rfl h4 h10 h27 h8 h127]
      simp only
      rw [ih c out hall1 (fun hf => by have := hfr hf; simp at this; omega)]
      simp [List.filter_cons, hb]
    | true =>
      by_cases hroom : c.length < bufSize - 1
      · rw [dispatch_store charSigned bufSize mask flags c out input b hb hroom
          (fun hf => by have := hfr hf; simp at this; omega)]
        simp only
        rw [ih (c ++ [b]) _ hall1 (fun hf => by have := hfr hf; simp at this ⊢; omega)]
        obtain ⟨k, hk⟩ : ∃ k, bufSize - 1 - c.length = k + 1 :=
          ⟨bufSize - 1 - c.length - 1, by omega⟩
        have hk1 : bufSize - 1 - (c ++ [b]).length = k := by
          simp
          omega
        rw [hk, hk1]
        simp [List.filter_cons, hb, echo]
        cases flags.noecho <;> simp
      · rw [dispatch_drop charSigned bufSize mask flags _ b hb rfl (by simp [holding]; omega)]
        simp only
        rw [ih c out hall1 (fun hf => by have := hfr hf; simp at this; omega)]
        have hz : bufSize - 1 - c.length = 0 := by omega
        rw [hz]
        simp

theorem accepted_printable (charSigned : Bool) (mask : Option (List Nat)) (b : Nat)
    (hp : printable charSigned b = true) :
    accepted charSigned mask b
      = (match mask with
        | none => true
        | some m => m.contains b) := by
  have h0 : b ≠ 0 := charVal_pos charSigned b (printable_spec charSigned b hp).1
  unfold accepted
  rw [hp]
  cases mask with
  | none => rfl
  | some m => simp [maskRejects, strchr, h0]

theorem filter_accepted (charSigned : Bool) (mask : Option (List Nat)) (bs : List Nat)
    (hp : ∀ b ∈ bs, printable charSigned b = true) :
    bs.filter (accepted charSigned mask) = keep mask bs := by
  cases mask with
  | none =>
    simp only [keep]
    rw [List.filter_eq_self]
    intro b hb
    rw [accepted_printable charSigned none b (hp b hb)]
  | some m =>
    simp only [keep]
    apply List.filter_congr
    intro b hb
    rw [accepted_printable charSigned (some m) b (hp b hb)]

theorem keep_length_le (mask : Option (List Nat)) (bs : List Nat) :
    (keep mask bs).length ≤ bs.length := by
  cases mask with
  | none => exact Nat.le_refl _
  | some m => exact List.length_filter_le _ _

/-- Claim C2, as stated, fails: with capacity 4 and no mask the one byte 126,
which is neither EOT nor newline, leaves the buffer empty. -/
theorem BarReadline_tilde_not_stored :
    (4 ∉ [126] ∧ 10 ∉ [126] ∧ [126].length < 4 - 1) ∧
    BarReadline true 4 none stdinOnly BAR_RL_DEFAULT (typed [0] [126])
      = Outcome.running (initState 4 stdinOnly) ∧
    (initState 4 stdinOnly).buf = [0, 0, 0, 0] ∧
    content (initState 4 stdinOnly) ≠ keep none [126] ∧
    (initState 4 stdinOnly).bufLen ≠ (keep none [126]).length := by
  decide

/-- Claim C2, amended.  For every capacity, mask and flags, and every sequence
of bytes shorter than capacity-1 that are all printable candidates (above 0x1F
as a `char`, and neither 126 nor 127), feeding the bytes one at a time leaves
the call waiting with the buffer holding exactly the members of the mask among
them, in order and followed by zeros, and with position and length the length
of that subsequence. -/
theorem BarReadline_stores_mask_members (charSigned : Bool) (bufSize : Nat)
    (mask : Option (List Nat)) (input : BarReadlineFds) (flags : BarReadlineFlags)
    (rset : List Int) (bs : List Nat)
    (hp : ∀ b ∈ bs, printable charSigned b = true) (hlen : bs.length < bufSize - 1) :
    BarReadline charSigned bufSize mask input flags (typed rset bs)
      = Outcome.running
          { buf := keep mask bs ++ List.replicate (bufSize - (keep mask bs).length) 0,
            bufPos := (keep mask bs).length, bufLen := (keep mask bs).length,
            escapeState := 0, out := echo flags [] (keep mask bs), input := input } := by
  have hspecial : ∀ b ∈ bs, b ≠ 4 ∧ b ≠ 10 ∧ b ≠ 27 ∧ b ≠ 8 ∧ b ≠ 127 := by
    intro b hb
    obtain ⟨_, h2, h3, h4, _, h6, h7⟩ := printable_spec charSigned b (hp b hb)
    exact ⟨h2, h3, h4, h6, h7⟩
  have hinit : initState bufSize input = holding bufSize [] 0 [] input := by
    simp [initState, holding, fill]
  unfold BarReadline
  rw [if_neg (by omega), hinit,
    loop_typed charSigned bufSize mask flags input rset bs [] [] hspecial
      (fun _ => by simpa using hlen),
    filter_accepted charSigned mask bs hp]
  have hk := keep_length_le mask bs
  rw [List.take_of_length_le (by simp; omega)]
  simp [holding, fill]

/-- Claim C2, amended, at the bytes `a`, `x`, `b` with the mask `ab` and
capacity 5. -/
theorem BarReadline_stores_mask_members_witness :
    ((∀ b ∈ [97, 120, 98], printable true b = true) ∧ [97, 120, 98].length < 5 - 1) ∧
    BarReadline true 5 (some [97, 98]) stdinOnly BAR_RL_DEFAULT (typed [0] [97, 120, 98])
      = Outcome.running
          { buf := keep (some [97, 98]) [97, 120, 98]
              ++ List.replicate (5 - (keep (some [97, 98]) [97, 120, 98]).length) 0,
            bufPos := (keep (some [97, 98]) [97, 120, 98]).length,
            bufLen := (keep (some [97, 98]) [97, 120, 98]).length,
            escapeState := 0,
            out := echo BAR_RL_DEFAULT [] (keep (some [97, 98]) [97, 120, 98]),
            input := stdinOnly } :=
  ⟨⟨by decide, by decide⟩,
    BarReadline_stores_mask_members true 5 (some [97, 98]) stdinOnly BAR_RL_DEFAULT [0]
      [97, 120, 98] (by decide) (by decide)⟩

/-! ## The mask -/

theorem dispatch_not_in_mask (charSigned : Bool) (bufSize : Nat) (m : List Nat)
    (flags : BarReadlineFlags) (s : RlState) (b : Nat) (hm : m.contains b = false)
    (h4 : b ≠ 4) (h10 : b ≠ 10) (h8 : b ≠ 8) (h127 : b ≠ 127) :
    ∃ s1, dispatch charSigned bufSize (some m) flags s b = Step.next s1 ∧ s1.buf = s.buf ∧
      s1.bufPos = s.bufPos ∧ s1.bufLen = s.bufLen ∧ s1.out = s.out := by
  unfold dispatch
  rw [if_neg h4, if_neg h10]
  split
  · exact ⟨_, rfl, rfl, rfl, rfl, rfl⟩
  · split
    · exact ⟨_, rfl, rfl, rfl, rfl, rfl⟩
    · rw [if_neg (by omega)]
      unfold defaultCase
      split
      · exact ⟨_, rfl, rfl, rfl, rfl, rfl⟩
      · rename_i hc
        have h0 : b ≠ 0 := charVal_pos charSigned b hc
        have hm1 : b ∉ m := by simpa using hm
        have hrej : maskRejects (some m) b = true := by
          simp [maskRejects, strchr, h0, hm1]
        rw [if_pos hrej]
        split
        · exact ⟨_, rfl, rfl, rfl, rfl, rfl⟩
        · split
          · exact ⟨_, rfl, rfl, rfl, rfl, rfl⟩
          · exact ⟨_, rfl, rfl, rfl, rfl, rfl⟩

theorem reached_inv (charSigned : Bool) (bufSize : Nat) (mask : Option (List Nat))
    (input : BarReadlineFds) (flags : BarReadlineFlags) (evs : List Event) (s : RlState)
    (h : reached (BarReadline charSigned bufSize mask input flags evs) = some s) :
    Inv bufSize mask s := by
  unfold BarReadline at h
  by_cases h0 : bufSize = 0
  · rw [if_pos h0] at h
    simp [reached] at h
  · rw [if_neg h0] at h
    have hinv := loop_inv charSigned bufSize mask flags evs _
      (initState_inv bufSize mask input (by omega))
    generalize loop charSigned bufSize mask flags (initState bufSize input) evs = o at h hinv
    cases o with
    | running s1 =>
      simp only [reached, Option.some.injEq] at h
      rw [← h]
      exact hinv
    | returned n s1 rest =>
      simp only [reached, Option.some.injEq] at h
      rw [← h]
      exact hinv.1
    | assertFailed => simp [reached] at h
    | outOfBounds => simp [reached] at h

/-- Claim C3, as stated, fails: with the mask `yYnN` and the line `y` entered,
the byte 127, which is not a member of the mask, changes the buffer, the
position, the length and the output. -/
theorem BarReadline_mask_lets_backspace_through :
    yesNoMask.contains 127 = false ∧
    BarReadline true 4 (some yesNoMask) stdinOnly BAR_RL_DEFAULT (typed [0] [121])
      = Outcome.running (holding 4 [121] 0 [121] stdinOnly) ∧
    dispatch true 4 (some yesNoMask) BAR_RL_DEFAULT (holding 4 [121] 0 [121] stdinOnly) 127
      = Step.next (holding 4 [] 0 ([121] ++ caretBackErase) stdinOnly) ∧
    (holding 4 [] 0 ([121] ++ caretBackErase) stdinOnly).buf
      ≠ (holding 4 [121] 0 [121] stdinOnly).buf ∧
    (holding 4 [] 0 ([121] ++ caretBackErase) stdinOnly).bufLen
      ≠ (holding 4 [121] 0 [121] stdinOnly).bufLen ∧
    (holding 4 [] 0 ([121] ++ caretBackErase) stdinOnly).out
      ≠ (holding 4 [121] 0 [121] stdinOnly).out := by
  decide

/-- Claim C3, amended.  With a mask configured, a byte that is not a member of
the mask and is none of 4, 10, 8 and 127 leaves the buffer, the position and
the length unchanged, appends nothing to the output and does not end the call,
whatever the editor state; and at any point of a call every byte of
`buf[0..length)` is a member of the mask. -/
theorem BarReadline_mask_frame (charSigned : Bool) (bufSize : Nat) (m : List Nat)
    (input : BarReadlineFds) (flags : BarReadlineFlags) :
    (∀ (s : RlState) (b : Nat), m.contains b = false → b ≠ 4 → b ≠ 10 → b ≠ 8 → b ≠ 127 →
      ∃ s1, dispatch charSigned bufSize (some m) flags s b = Step.next s1 ∧
        s1.buf = s.buf ∧ s1.bufPos = s.bufPos ∧ s1.bufLen = s.bufLen ∧ s1.out = s.out) ∧
    (∀ (evs : List Event) (s : RlState),
      reached (BarReadline charSigned bufSize (some m) input flags evs) = some s →
      ∀ i, i < s.bufLen → ∃ v, s.buf[i]? = some v ∧ m.contains v = true) := by
  refine ⟨fun s b hm h4 h10 h8 h127 =>
    dispatch_not_in_mask charSigned bufSize m flags s b hm h4 h10 h8 h127, ?_⟩
  intro evs s hr i hi
  have hinv := reached_inv charSigned bufSize (some m) input flags evs s hr
  obtain ⟨_, _, _, _, h5, _, _⟩ := inv_line bufSize (some m) s hinv
  obtain ⟨v, hv, hv0⟩ := h5 i hi
  refine ⟨v, hv, ?_⟩
  have hmem : v ∈ content s := by
    unfold content
    rw [List.mem_iff_getElem?]
    refine ⟨i, ?_⟩
    rw [List.getElem?_take_of_lt hi]
    exact hv
  have hrej := (hinv.2.2.2 v hmem).2
  simpa [maskRejects, strchr, hv0] using hrej

/-- Claim C3, amended, at the byte `x` after the line `y`, and at the call that
was fed `y`, `x`. -/
theorem BarReadline_mask_frame_witness :
    (∃ s1, dispatch true 4 (some yesNoMask) BAR_RL_DEFAULT
        (holding 4 [121] 0 [121] stdinOnly) 120 = Step.next s1 ∧
      s1.buf = (holding 4 [121] 0 [121] stdinOnly).buf ∧
      s1.bufPos = (holding 4 [121] 0 [121] stdinOnly).bufPos ∧
      s1.bufLen = (holding 4 [121] 0 [121] stdinOnly).bufLen ∧
      s1.out = (holding 4 [121] 0 [121] stdinOnly).out) ∧
    (∀ i, i < (holding 4 [121] 0 [121] stdinOnly).bufLen →
      ∃ v, (holding 4 [121] 0 [121] stdinOnly).buf[i]? = some v ∧
        yesNoMask.contains v = true) :=
  ⟨(BarReadline_mask_frame true 4 yesNoMask stdinOnly BAR_RL_DEFAULT).1
      (holding 4 [121] 0 [121] stdinOnly) 120 (by decide) (by decide) (by decide)
      (by decide) (by decide),
    (BarReadline_mask_frame true 4 yesNoMask stdinOnly BAR_RL_DEFAULT).2
      (typed [0] [121, 120]) (holding 4 [121] 0 [121] stdinOnly) (by decide)⟩

/-! ## Return on a full buffer -/

theorem printable_of_range (charSigned : Bool) (b : Nat) (h1 : 0x20 ≤ b) (h2 : b ≤ 0x7D) :
    printable charSigned b = true := by
  have hd : decide (128 ≤ b) = false := by
    simp
    omega
  have hc : charVal charSigned b = (b : Int) := by
    unfold charVal
    rw [hd]
    simp
  unfold printable
  rw [hc]
  simp
  omega

theorem typed_append (rset : List Int) (a b : List Nat) :
    typed rset (a ++ b) = typed rset a ++ typed rset b := by
  simp [typed]

theorem echo_echo (flags : BarReadlineFlags) (out a b : List Nat) :
    echo flags (echo flags out a) b = echo flags out (a ++ b) := by
  unfold echo
  cases flags.noecho <;> simp

/-- Claim C4.  With the full-return flag set and capacity `N >= 2`, after `N-1`
bytes in `0x20..0x7D` that the mask accepts, entered from the start of the
call, `BarReadline` returns `N-1` at once, whatever events follow and also when
none follows; the buffer holds the `N-1` bytes followed by a 0. -/
theorem BarReadline_full_return (charSigned : Bool) (bufSize : Nat)
    (mask : Option (List Nat)) (input : BarReadlineFds) (flags : BarReadlineFlags)
    (rset : List Int) (bs : List Nat) (rest : List Event)
    (hN : 2 ≤ bufSize) (hfr : flags.fullreturn = true) (hlen : bs.length = bufSize - 1)
    (hb : ∀ b ∈ bs, 0x20 ≤ b ∧ b ≤ 0x7D ∧ maskRejects mask b = false) :
    BarReadline charSigned bufSize mask input flags (typed rset bs ++ rest)
      = Outcome.returned (bufSize - 1)
          { buf := bs ++ [0], bufPos := bufSize - 1, bufLen := bufSize - 1, escapeState := 0,
            out := echo flags [] bs ++ [10], input := input }
          rest := by
  have hacc : ∀ b ∈ bs, accepted charSigned mask b = true := by
    intro b hbm
    obtain ⟨h1, h2, h3⟩ := hb b hbm
    simp [accepted, printable_of_range charSigned b h1 h2, h3]
  rcases List.eq_nil_or_concat bs with h0 | ⟨init, last, h0⟩
  · subst h0
    simp at hlen
    omega
  · rw [List.concat_eq_append] at h0
    subst h0
    have hil : init.length + 1 = bufSize - 1 := by simpa using hlen
    have hspecial : ∀ b ∈ init, b ≠ 4 ∧ b ≠ 10 ∧ b ≠ 27 ∧ b ≠ 8 ∧ b ≠ 127 := by
      intro b hbm
      obtain ⟨_, h2, h3, h4, _, h6, h7⟩ := printable_spec charSigned b
        (printable_of_range charSigned b (hb b (by simp [hbm])).1 (hb b (by simp [hbm])).2.1)
      exact ⟨h2, h3, h4, h6, h7⟩
    have hfilter : init.filter (accepted charSigned mask) = init := by
      rw [List.filter_eq_self]
      intro b hbm
      exact hacc b (by simp [hbm])
    have hinit : initState bufSize input = holding bufSize [] 0 [] input := by
      simp [initState, holding, fill]
    have hev : typed rset (init ++ [last]) ++ rest
        = typed rset init ++ (Event.ready rset (ReadResult.got last) :: rest) := by
      simp [typed]
    unfold BarReadline
    rw [if_neg (by omega), hinit, hev, loop_append,
      loop_typed charSigned bufSize mask flags input rset init [] [] hspecial
        (fun _ => by simp; omega),
      hfilter, List.take_of_length_le (by simp; omega)]
    simp only [resume, loop, iteration, List.nil_append]
    rw [dispatch_full charSigned bufSize mask flags init _ input last (hacc last (by simp))
      hil hfr]
    simp only [echo_echo, List.nil_append]
    have hfill : fill bufSize (init ++ [last]) = init ++ [last] ++ [0] := by
      have e : bufSize - (init ++ [last]).length = 1 := by
        simp
        omega
      rw [fill, e]
      rfl
    simp only [holding, hfill, List.length_append, List.length_singleton, hil]

/-- Claim C4 at the bytes `abc`, capacity 4, followed by a further byte that
stays unread. -/
theorem BarReadline_full_return_witness :
    (2 ≤ 4 ∧ BAR_RL_FULLRETURN.fullreturn = true ∧ [97, 98, 99].length = 4 - 1 ∧
      ∀ b ∈ [97, 98, 99], 0x20 ≤ b ∧ b ≤ 0x7D ∧ maskRejects none b = false) ∧
    BarReadline true 4 none stdinOnly BAR_RL_FULLRETURN
        (typed [0] [97, 98, 99] ++ typed [0] [100])
      = Outcome.returned (4 - 1)
          { buf := [97, 98, 99] ++ [0], bufPos := 4 - 1, bufLen := 4 - 1, escapeState := 0,
            out := echo BAR_RL_FULLRETURN [] [97, 98, 99] ++ [10], input := stdinOnly }
          (typed [0] [100]) :=
  ⟨⟨by decide, by decide, by decide, by decide⟩,
    BarReadline_full_return true 4 none stdinOnly BAR_RL_FULLRETURN [0] [97, 98, 99]
      (typed [0] [100]) (by decide) (by decide) (by decide) (by decide)⟩

/-! ## Bytes above 127 -/

/-- Where plain `char` is signed, a byte in `0x80..0xFF` is a negative `chr`,
passes the test `chr <= 0x1F` and is dropped like a control character,
whatever the state, the mask and the flags. -/
theorem dispatch_high_byte_signed (bufSize : Nat) (mask : Option (List Nat))
    (flags : BarReadlineFlags) (s : RlState) (b : Nat) (h1 : 0x80 ≤ b) (h2 : b ≤ 0xFF) :
    dispatch true bufSize mask flags s b = Step.next s := by
  have hc : charVal true b ≤ 0x1F := by
    have hd : decide (128 ≤ b) = true := by
      simp
      omega
    unfold charVal
    rw [hd]
    simp
    omega
  unfold dispatch
  rw [if_neg (by omega), if_neg (by omega), if_neg (by omega), if_neg (by omega),
    if_neg (by omega)]
  unfold defaultCase
  rw [if_pos hc]

/-- Where plain `char` is unsigned, the bytes `0xE2 0x82 0xAC` are entered and
one backspace removes the three of them. -/
theorem BarReadline_euro_unsigned_char :
    BarReadline false 4 none stdinOnly BAR_RL_DEFAULT (typed [0] [0xE2, 0x82, 0xAC])
      = Outcome.running (holding 4 [0xE2, 0x82, 0xAC] 0 [0xE2, 0x82, 0xAC] stdinOnly) ∧
    BarReadline false 4 none stdinOnly BAR_RL_DEFAULT (typed [0] [0xE2, 0x82, 0xAC, 8])
      = Outcome.running
          (holding 4 [] 0 ([0xE2, 0x82, 0xAC] ++ caretBackErase) stdinOnly) ∧
    BarReadline false 4 none stdinOnly BAR_RL_DEFAULT (typed [0] [0xE2, 0x82, 0xAC, 127])
      = Outcome.running
          (holding 4 [] 0 ([0xE2, 0x82, 0xAC] ++ caretBackErase) stdinOnly) := by
  decide

/-- Claim C5 on the code where plain `char` is signed: with no mask and
capacity 4 the bytes `0xE2 0x82 0xAC` are not inserted; the call still waits
with length 0, an all-zero buffer and nothing echoed, and the following
backspace finds nothing to remove. -/
theorem BarReadline_euro_signed_char :
    BarReadline true 4 none stdinOnly BAR_RL_DEFAULT (typed [0] [0xE2, 0x82, 0xAC])
      = Outcome.running
          { buf := [0, 0, 0, 0], bufPos := 0, bufLen := 0, escapeState := 0, out := [],
            input := stdinOnly } ∧
    BarReadline true 4 none stdinOnly BAR_RL_DEFAULT (typed [0] [0xE2, 0x82, 0xAC, 8])
      = Outcome.running
          { buf := [0, 0, 0, 0], bufPos := 0, bufLen := 0, escapeState := 0, out := [],
            input := stdinOnly } := by
  decide

/-! ## Backspace -/

theorem dispatch_backspace (charSigned : Bool) (bufSize : Nat) (mask : Option (List Nat))
    (flags : BarReadlineFlags) (s : RlState) (chr : Nat) (h : chr = 8 ∨ chr = 127) :
    dispatch charSigned bufSize mask flags s chr = backspace flags s := by
  unfold dispatch
  rw [if_neg (by omega), if_neg (by omega), if_neg (by omega), if_neg (by omega), if_pos h]

/-- Claim C6.  A backspace byte in a state with position and length `L > 0` and
`buf[L] == 0`: when the last byte `x` of the line is ASCII, that one byte is
removed; when the line ends with a lead byte `x` followed by the continuation
bytes `conts`, these `conts.length + 1` bytes are removed.  In both cases the
bytes `pre` before them stay, zeros take the place of the removed bytes, and
position and length are the length of `pre`. -/
theorem backspace_removes_last_character (charSigned : Bool) (bufSize : Nat)
    (mask : Option (List Nat)) (flags : BarReadlineFlags) (chr : Nat)
    (hchr : chr = 8 ∨ chr = 127) (pre tail : List Nat) (esc : Nat) (out : List Nat)
    (input : BarReadlineFds) :
    (∀ x, BarReadlineIsAscii x = true →
      dispatch charSigned bufSize mask flags
          { buf := pre ++ x :: 0 :: tail, bufPos := pre.length + 1, bufLen := pre.length + 1,
            escapeState := esc, out := out, input := input } chr
        = Step.next
          { buf := pre ++ 0 :: 0 :: tail, bufPos := pre.length, bufLen := pre.length,
            escapeState := esc, out := echo flags out caretBackErase, input := input }) ∧
    (∀ x conts, BarReadlineIsUtf8Start x = true →
      (∀ c ∈ conts, BarReadlineIsUtf8Content c = true) →
      dispatch charSigned bufSize mask flags
          { buf := pre ++ x :: conts ++ 0 :: tail, bufPos := pre.length + 1 + conts.length,
            bufLen := pre.length + 1 + conts.length,
            escapeState := esc, out := out, input := input } chr
        = Step.next
          { buf := pre ++ 0 :: 0 :: (List.replicate conts.length 0 ++ tail),
            bufPos := pre.length, bufLen := pre.length,
            escapeState := esc, out := echo flags out caretBackErase, input := input }) := by
  constructor
  · intro x hx
    rw [dispatch_backspace charSigned bufSize mask flags _ chr hchr]
    unfold backspace
    simp only
    rw [if_pos (by omega), deleteLast_ascii pre x tail hx]
    rfl
  · intro x conts hx hall
    rw [dispatch_backspace charSigned bufSize mask flags _ chr hchr]
    unfold backspace
    simp only
    have hl : pre.length + 1 + conts.length = (pre ++ x :: conts).length := by
      simp
      omega
    rw [if_pos (by omega), hl, deleteLast_sequence pre x conts tail hx hall]
    rfl

/-- Claim C6 at the line `a`, `b` and at the line `a`, `0xE2 0x82 0xAC`, in a
buffer of 6 bytes. -/
theorem backspace_removes_last_character_witness :
    (127 = 8 ∨ 127 = 127) ∧
    dispatch false 6 none BAR_RL_DEFAULT
        { buf := [97] ++ 98 :: 0 :: [0, 0, 0], bufPos := [97].length + 1,
          bufLen := [97].length + 1, escapeState := 0, out := [], input := stdinOnly } 127
      = Step.next
        { buf := [97] ++ 0 :: 0 :: [0, 0, 0], bufPos := [97].length, bufLen := [97].length,
          escapeState := 0, out := echo BAR_RL_DEFAULT [] caretBackErase,
          input := stdinOnly } ∧
    dispatch false 6 none BAR_RL_DEFAULT
        { buf := [97] ++ 0xE2 :: [0x82, 0xAC] ++ 0 :: [0],
          bufPos := [97].length + 1 + [0x82, 0xAC].length,
          bufLen := [97].length + 1 + [0x82, 0xAC].length,
          escapeState := 0, out := [], input := stdinOnly } 127
      = Step.next
        { buf := [97] ++ 0 :: 0 :: (List.replicate [0x82, 0xAC].length 0 ++ [0]),
          bufPos := [97].length, bufLen := [97].length,
          escapeState := 0, out := echo BAR_RL_DEFAULT [] caretBackErase,
          input := stdinOnly } :=
  ⟨by decide,
    (backspace_removes_last_character false 6 none BAR_RL_DEFAULT 127 (by decide) [97]
      [0, 0, 0] 0 [] stdinOnly).1 98 (by decide),
    (backspace_removes_last_character false 6 none BAR_RL_DEFAULT 127 (by decide) [97]
      [0] 0 [] stdinOnly).2 0xE2 [0x82, 0xAC] (by decide) (by decide)⟩

/-! ## The escape filter -/

/-- Claim C7.  From any state with the escape filter idle, whatever the mask
and the flags, the three bytes 27, `[`, `A` leave the call waiting in the very
same state: buffer, position, length and output are unchanged, and the filter
is idle again. -/
theorem escape_sequence_is_swallowed (charSigned : Bool) (bufSize : Nat)
    (mask : Option (List Nat)) (flags : BarReadlineFlags) (s : RlState) (rset : List Int)
    (hidle : s.escapeState = 0) :
    loop charSigned bufSize mask flags s (typed rset [27, 91, 65]) = Outcome.running s := by
  obtain ⟨buf, pos, len, esc, out, input⟩ := s
  simp only at hidle
  subst hidle
  have h91 : ¬ charVal charSigned 91 ≤ 0x1F := by
    cases charSigned <;> decide
  have h65 : ¬ charVal charSigned 65 ≤ 0x1F := by
    cases charSigned <;> decide
  simp [typed, loop, iteration, dispatch, defaultCase, h91, h65]

/-- Claim C7 in the state that holds the line `ab`, with a mask that contains
`[` and `A`. -/
theorem escape_sequence_is_swallowed_witness :
    (holding 4 [97, 98] 0 [97, 98] stdinOnly).escapeState = 0 ∧
    loop true 4 (some [91, 65, 97, 98]) BAR_RL_DEFAULT (holding 4 [97, 98] 0 [97, 98] stdinOnly)
        (typed [0] [27, 91, 65])
      = Outcome.running (holding 4 [97, 98] 0 [97, 98] stdinOnly) :=
  ⟨by decide,
    escape_sequence_is_swallowed true 4 (some [91, 65, 97, 98]) BAR_RL_DEFAULT
      (holding 4 [97, 98] 0 [97, 98] stdinOnly) [0] (by decide)⟩

/-! ## Lines ended by a newline, and the wrappers -/

theorem accepted_eq_contains (charSigned : Bool) (m : List Nat) (b : Nat)
    (hm : ∀ x ∈ m, 0x20 ≤ x ∧ x ≤ 0x7D) :
    accepted charSigned (some m) b = m.contains b := by
  by_cases hb : b ∈ m
  · have hp := printable_of_range charSigned b (hm b hb).1 (hm b hb).2
    simp [accepted, hp, maskRejects, strchr, hb]
  · by_cases h0 : b = 0
    · subst h0
      simp [accepted, printable, charVal, hb]
    · simp [accepted, maskRejects, strchr, hb, h0]

/-- A line without the bytes 4, 8, 10, 27 and 127, then a newline, under a mask
of printable characters and without the full-return flag: the call returns
with the members of the mask, as many as fit. -/
theorem BarReadline_line (charSigned : Bool) (bufSize : Nat) (m : List Nat)
    (input : BarReadlineFds) (flags : BarReadlineFlags) (rset : List Int)
    (line : List Nat) (rest : List Event)
    (hN : 0 < bufSize) (hfr : flags.fullreturn = false)
    (hm : ∀ x ∈ m, 0x20 ≤ x ∧ x ≤ 0x7D)
    (hline : ∀ b ∈ line, b ≠ 4 ∧ b ≠ 10 ∧ b ≠ 27 ∧ b ≠ 8 ∧ b ≠ 127) :
    BarReadline charSigned bufSize (some m) input flags (typed rset (line ++ [10]) ++ rest)
      = Outcome.returned ((line.filter (fun b => m.contains b)).take (bufSize - 1)).length
          (holding bufSize ((line.filter (fun b => m.contains b)).take (bufSize - 1)) 0
            (echo flags [] ((line.filter (fun b => m.contains b)).take (bufSize - 1)) ++ [10])
            input)
          rest := by
  have hinit : initState bufSize input = holding bufSize [] 0 [] input := by
    simp [initState, holding, fill]
  have hev : typed rset (line ++ [10]) ++ rest
      = typed rset line ++ (Event.ready rset (ReadResult.got 10) :: rest) := by
    simp [typed]
  have hfilter : line.filter (accepted charSigned (some m))
      = line.filter (fun b => m.contains b) := by
    apply List.filter_congr
    intro b _
    exact accepted_eq_contains charSigned m b hm
  unfold BarReadline
  rw [if_neg (by omega), hinit, hev, loop_append,
    loop_typed charSigned bufSize (some m) flags input rset line [] [] hline
      (fun hf => by rw [hfr] at hf; exact absurd hf Bool.false_ne_true),
    hfilter]
  simp [resume, loop, iteration, dispatch, holding]

theorem head?_filter_find? (p : Nat → Bool) (l : List Nat) :
    (l.filter p).head? = l.find? p := by
  induction l with
  | nil => rfl
  | cons a t ih =>
    cases hp : p a with
    | false => simp [List.filter_cons, List.find?_cons, hp, ih]
    | true => simp [List.filter_cons, List.find?_cons, hp]

theorem first_byte_of_line (F : List Nat) :
    (fill 2 (F.take 1))[0]? = some (F.head?.getD 0) := by
  cases F with
  | nil => rfl
  | cons a t => rfl

/-- Claim C8.  For every default `d` and every line without the bytes 4, 8, 10,
27 and 127, followed by a newline, `BarReadlineYesNo` returns: whether the
first byte of the line that belongs to `yYnN` is `y` or `Y`, when there is
such a byte; and `d` when there is none. -/
theorem BarReadlineYesNo_decision (charSigned : Bool) (d : Bool) (input : BarReadlineFds)
    (rset : List Int) (line : List Nat) (rest : List Event)
    (hline : ∀ b ∈ line, b ≠ 4 ∧ b ≠ 8 ∧ b ≠ 10 ∧ b ≠ 27 ∧ b ≠ 127) :
    BarReadlineYesNo charSigned d input (typed rset (line ++ [10]) ++ rest)
      = some (match line.find? (fun b => yesNoMask.contains b) with
          | some b => b == 121 || b == 89
          | none => d) := by
  have hline1 : ∀ b ∈ line, b ≠ 4 ∧ b ≠ 10 ∧ b ≠ 27 ∧ b ≠ 8 ∧ b ≠ 127 := by
    intro b hb
    obtain ⟨h1, h2, h3, h4, h5⟩ := hline b hb
    exact ⟨h1, h3, h4, h2, h5⟩
  unfold BarReadlineYesNo
  rw [BarReadline_line charSigned 2 yesNoMask input BAR_RL_DEFAULT rset line rest
    (by decide) rfl (by decide) hline1]
  simp only [holding]
  rw [first_byte_of_line, head?_filter_find?]
  simp only
  cases hf : line.find? (fun b => yesNoMask.contains b) with
  | none => simp
  | some a =>
    have ha := List.find?_some hf
    have ha0 : a ≠ 0 := by
      intro h0
      subst h0
      simp [yesNoMask] at ha
    simp [ha0]

/-- Claim C8 at the lines of the specification: the empty line gives the
default, `n` gives false and `Y` gives true. -/
theorem BarReadlineYesNo_decision_witness :
    ((∀ b ∈ ([] : List Nat), b ≠ 4 ∧ b ≠ 8 ∧ b ≠ 10 ∧ b ≠ 27 ∧ b ≠ 127) ∧
      BarReadlineYesNo true true stdinOnly (typed [0] ([] ++ [10]) ++ []) = some true) ∧
    ((∀ b ∈ [110], b ≠ 4 ∧ b ≠ 8 ∧ b ≠ 10 ∧ b ≠ 27 ∧ b ≠ 127) ∧
      BarReadlineYesNo true true stdinOnly (typed [0] ([110] ++ [10]) ++ []) = some false) ∧
    ((∀ b ∈ [89], b ≠ 4 ∧ b ≠ 8 ∧ b ≠ 10 ∧ b ≠ 27 ∧ b ≠ 127) ∧
      BarReadlineYesNo true false stdinOnly (typed [0] ([89] ++ [10]) ++ []) = some true) :=
  ⟨⟨by decide, BarReadlineYesNo_decision true true stdinOnly [0] [] [] (by decide)⟩,
    ⟨by decide, BarReadlineYesNo_decision true true stdinOnly [0] [110] [] (by decide)⟩,
    ⟨by decide, BarReadlineYesNo_decision true false stdinOnly [0] [89] [] (by decide)⟩⟩

theorem digitMask_contains (b : Nat) : digitMask.contains b = isdigit b := by
  by_cases h : b ≤ 57
  · interval_cases b <;> rfl
  · have h1 : isdigit b = false := by
      simp [isdigit]
      omega
    rw [h1]
    simp [digitMask]
    omega

theorem digitsValue_digits (ds : List Nat) (h : ∀ d ∈ ds, isdigit d = true) :
    ∀ acc, digitsValue ds acc = ds.foldl (fun acc d => 10 * acc + (d - 48)) acc := by
  induction ds with
  | nil =>
    intro acc
    rfl
  | cons d t ih =>
    intro acc
    have hd : isdigit d = true := h d (by simp)
    simp only [digitsValue, hd, if_true, List.foldl_cons]
    exact ih (fun x hx => h x (by simp [hx])) _

theorem foldl_digits_bound (ds : List Nat) (h : ∀ d ∈ ds, isdigit d = true) :
    ∀ acc, ds.foldl (fun acc d => 10 * acc + (d - 48)) acc + 1 ≤ (acc + 1) * 10 ^ ds.length := by
  induction ds with
  | nil =>
    intro acc
    simp
  | cons d t ih =>
    intro acc
    have hd : isdigit d = true := h d (by simp)
    have hd9 : d - 48 ≤ 9 := by
      simp [isdigit] at hd
      omega
    have h1 := ih (fun x hx => h x (by simp [hx])) (10 * acc + (d - 48))
    have h2 : (10 * acc + (d - 48) + 1) * 10 ^ t.length ≤ (acc + 1) * 10 ^ (t.length + 1) := by
      rw [pow_succ]
      have : 10 * acc + (d - 48) + 1 ≤ (acc + 1) * 10 := by omega
      calc (10 * acc + (d - 48) + 1) * 10 ^ t.length
          ≤ ((acc + 1) * 10) * 10 ^ t.length := Nat.mul_le_mul_right _ this
        _ = (acc + 1) * (10 ^ t.length * 10) := by ring
    simp only [List.foldl_cons, List.length_cons]
    exact Nat.le_trans h1 h2

theorem atoi_digits (ds : List Nat) (h : ∀ d ∈ ds, isdigit d = true) (hk : ds.length ≤ 9) :
    atoi ds = some ((decimalValue ds : Nat) : Int) := by
  have hb := foldl_digits_bound ds h 0
  have hpow : 10 ^ ds.length ≤ 10 ^ 9 := Nat.pow_le_pow_right (by decide) hk
  have hval : decimalValue ds < 1000000000 := by
    unfold decimalValue
    simp only [Nat.zero_add, Nat.one_mul] at hb
    have : (10 : Nat) ^ 9 = 1000000000 := by norm_num
    omega
  have hv : (match ds.dropWhile isspace with
      | 45 :: t => -(digitsValue t 0 : Int)
      | 43 :: t => (digitsValue t 0 : Int)
      | t => (digitsValue t 0 : Int)) = ((decimalValue ds : Nat) : Int) := by
    cases ds with
    | nil => rfl
    | cons a t =>
      have ha : isdigit a = true := h a (by simp)
      have ha1 : 48 ≤ a ∧ a ≤ 57 := by
        simpa [isdigit] using ha
      have hsp : isspace a = false := by
        simp [isspace]
        omega
      rw [List.dropWhile_cons_of_neg (by simp [hsp])]
      have e := digitsValue_digits (a :: t) h 0
      split
      · rename_i heq
        simp at heq
        omega
      · rename_i heq
        simp at heq
        omega
      · rw [e]
        rfl
  unfold atoi
  simp only [hv]
  rw [if_pos]
  constructor
  · unfold INT_MIN
    omega
  · unfold INT_MAX
    omega

/-- Claim C9.  For every line without the bytes 4, 8, 10, 27 and 127, followed
by a newline, whose decimal digits are at most 9, `BarReadlineInt` returns the
number of these digits and stores their decimal value, 0 when there is none,
in the out-parameter. -/
theorem BarReadlineInt_value (charSigned : Bool) (input : BarReadlineFds)
    (rset : List Int) (line : List Nat) (rest : List Event)
    (hline : ∀ b ∈ line, b ≠ 4 ∧ b ≠ 8 ∧ b ≠ 10 ∧ b ≠ 27 ∧ b ≠ 127)
    (hk : (line.filter isdigit).length ≤ 9) :
    BarReadlineInt charSigned input (typed rset (line ++ [10]) ++ rest)
      = some ((line.filter isdigit).length,
          some ((decimalValue (line.filter isdigit) : Nat) : Int)) := by
  have hline1 : ∀ b ∈ line, b ≠ 4 ∧ b ≠ 10 ∧ b ≠ 27 ∧ b ≠ 8 ∧ b ≠ 127 := by
    intro b hb
    obtain ⟨h1, h2, h3, h4, h5⟩ := hline b hb
    exact ⟨h1, h3, h4, h2, h5⟩
  have hfil : line.filter (fun b => digitMask.contains b) = line.filter isdigit := by
    apply List.filter_congr
    intro b _
    exact digitMask_contains b
  have hdig : ∀ d ∈ line.filter isdigit, isdigit d = true := by
    intro d hd
    exact (List.mem_filter.1 hd).2
  have hnz : ∀ d ∈ line.filter isdigit, d ≠ 0 := by
    intro d hd h0
    have := hdig d hd
    subst h0
    simp [isdigit] at this
  unfold BarReadlineInt
  rw [BarReadline_line charSigned 16 digitMask input BAR_RL_DEFAULT rset line rest
    (by decide) rfl (by decide) hline1, hfil, List.take_of_length_le (by omega)]
  simp only [holding]
  rw [fill_eq 16 _ (by omega), cString_line _ _ hnz, atoi_digits _ hdig hk]

/-- Claim C9 at the lines of the specification: `42` gives the value 42 and
the count 2, the empty line gives the value 0 and the count 0. -/
theorem BarReadlineInt_value_witness :
    (((∀ b ∈ [52, 50], b ≠ 4 ∧ b ≠ 8 ∧ b ≠ 10 ∧ b ≠ 27 ∧ b ≠ 127) ∧
        ([52, 50].filter isdigit).length ≤ 9) ∧
      BarReadlineInt true stdinOnly (typed [0] ([52, 50] ++ [10]) ++ [])
        = some (2, some 42)) ∧
    (((∀ b ∈ ([] : List Nat), b ≠ 4 ∧ b ≠ 8 ∧ b ≠ 10 ∧ b ≠ 27 ∧ b ≠ 127) ∧
        (([] : List Nat).filter isdigit).length ≤ 9) ∧
      BarReadlineInt true stdinOnly (typed [0] ([] ++ [10]) ++ [])
        = some (0, some 0)) :=
  ⟨⟨⟨by decide, by decide⟩,
      BarReadlineInt_value true stdinOnly [0] [52, 50] [] (by decide) (by decide)⟩,
    ⟨⟨by decide, by decide⟩,
      BarReadlineInt_value true stdinOnly [0] [] [] (by decide) (by decide)⟩⟩

/-! ## Failure of `select` -/

/-- Claim C10, as stated, fails: when `select` fails after the byte `a` was
entered, the call returns 0 and the buffer still holds `a`. -/
theorem BarReadline_select_failure_keeps_line :
    BarReadline true 4 none stdinOnly BAR_RL_DEFAULT (typed [0] [97] ++ [Event.selectFail])
      = Outcome.returned 0
          { buf := [97, 0, 0, 0], bufPos := 1, bufLen := 1, escapeState := 0, out := [97],
            input := stdinOnly } [] ∧
    ([97, 0, 0, 0] : List Nat) ≠ List.replicate 4 0 := by
  decide

/-- Claim C10, amended.  Whenever `select` fails during a call, after whatever
events `pre` the call has consumed, the call returns 0 and leaves the state as
it was before the failing wait, the buffer included; the buffer is all-zero
exactly when the line held at that point is empty. -/
theorem BarReadline_select_failure (charSigned : Bool) (bufSize : Nat)
    (mask : Option (List Nat)) (input : BarReadlineFds) (flags : BarReadlineFlags)
    (pre rest : List Event) (s : RlState)
    (hrun : BarReadline charSigned bufSize mask input flags pre = Outcome.running s) :
    BarReadline charSigned bufSize mask input flags (pre ++ Event.selectFail :: rest)
        = Outcome.returned 0 s rest ∧
      (s.buf = List.replicate bufSize 0 ↔ s.bufLen = 0) := by
  have hinv : Inv bufSize mask s :=
    reached_inv charSigned bufSize mask input flags pre s (by rw [hrun]; rfl)
  constructor
  · unfold BarReadline at hrun ⊢
    by_cases h0 : bufSize = 0
    · rw [if_pos h0] at hrun
      simp at hrun
    · rw [if_neg h0] at hrun
      rw [if_neg h0, loop_append, hrun]
      rfl
  · obtain ⟨_, _, _, _, h5, _, _⟩ := inv_line bufSize mask s hinv
    obtain ⟨hcl, _⟩ := inv_length bufSize mask s hinv
    constructor
    · intro hz
      by_contra hne
      obtain ⟨v, hv, hv0⟩ := h5 0 (by omega)
      rw [hz, List.getElem?_replicate] at hv
      split at hv
      · simp only [Option.some.injEq] at hv
        exact hv0 hv.symm
      · simp at hv
    · intro hl
      have hc : content s = [] := by
        apply List.eq_nil_of_length_eq_zero
        omega
      rw [hinv.2.2.1, hc]
      simp [fill]

/-- Claim C10, amended, at a failure of `select` after the byte `a`. -/
theorem BarReadline_select_failure_witness :
    BarReadline true 4 none stdinOnly BAR_RL_DEFAULT (typed [0] [97])
      = Outcome.running (holding 4 [97] 0 [97] stdinOnly) ∧
    (BarReadline true 4 none stdinOnly BAR_RL_DEFAULT
        (typed [0] [97] ++ Event.selectFail :: typed [0] [98])
        = Outcome.returned 0 (holding 4 [97] 0 [97] stdinOnly) (typed [0] [98]) ∧
      ((holding 4 [97] 0 [97] stdinOnly).buf = List.replicate 4 0 ↔
        (holding 4 [97] 0 [97] stdinOnly).bufLen = 0)) :=
  ⟨by decide,
    BarReadline_select_failure true 4 none stdinOnly BAR_RL_DEFAULT (typed [0] [97])
      (typed [0] [98]) (holding 4 [97] 0 [97] stdinOnly) (by decide)⟩

/-! ## End of file on a descriptor -/

/-- Claim C11, as stated, fails: when the primary descriptor is descriptor 3
and not standard input, a failing read on it leaves it in the wait set, and
the switch runs on the stale `chr`, here `a`, which is entered. -/
theorem iteration_primary_not_stdin :
    curFd { set := [3], maxfd := 4, fds0 := 3, fds1 := -1 } [3] = 3 ∧
    iteration true 4 none BAR_RL_DEFAULT
        (initState 4 { set := [3], maxfd := 4, fds0 := 3, fds1 := -1 })
        (Event.ready [3] (ReadResult.failed 97))
      = Step.next
          { buf := [97, 0, 0, 0], bufPos := 1, bufLen := 1, escapeState := 0, out := [97],
            input := { set := [3], maxfd := 4, fds0 := 3, fds1 := -1 } } := by
  decide

/-- Claim C11, amended.  When the primary descriptor is standard input and a
read on it yields EOF or an error, standard input is removed from the wait set
of the input, no byte is dispatched (buffer, position, length, escape state
and output are unchanged) and the call goes on; when a newline is delivered
next, the call returns the length accepted so far. -/
theorem iteration_stdin_eof (charSigned : Bool) (bufSize : Nat) (mask : Option (List Nat))
    (flags : BarReadlineFlags) (s : RlState) (rset : List Int) (stale : Nat)
    (hprim : s.input.fds0 = STDIN_FILENO) (hready : rset.contains s.input.fds0 = true) :
    iteration charSigned bufSize mask flags s (Event.ready rset (ReadResult.failed stale))
        = Step.next { s with input := withoutStdin s.input } ∧
      STDIN_FILENO ∉ (withoutStdin s.input).set ∧
      ∀ (rset2 : List Int) (rest : List Event),
        loop charSigned bufSize mask flags s
            (Event.ready rset (ReadResult.failed stale)
              :: Event.ready rset2 (ReadResult.got 10) :: rest)
          = Outcome.returned s.bufLen
              { s with input := withoutStdin s.input, out := s.out ++ [10] } rest := by
  have hcur : curFd s.input rset = STDIN_FILENO := by
    unfold curFd
    rw [if_pos hready, hprim]
  have hit : iteration charSigned bufSize mask flags s
      (Event.ready rset (ReadResult.failed stale))
      = Step.next { s with input := withoutStdin s.input } := by
    simp only [iteration]
    rw [if_pos hcur, hcur]
    rfl
  refine ⟨hit, ?_, ?_⟩
  · simp [withoutStdin]
  · intro rset2 rest
    simp only [loop, hit]
    simp [iteration, dispatch]

/-- Claim C11, amended, at a call that holds the line `a` when standard input,
the primary descriptor, comes to its end, and the fifo then delivers a
newline. -/
theorem iteration_stdin_eof_witness :
    ((holding 4 [97] 0 [97] fifoInput).input.fds0 = STDIN_FILENO ∧
      [STDIN_FILENO].contains (holding 4 [97] 0 [97] fifoInput).input.fds0 = true) ∧
    (iteration true 4 none BAR_RL_DEFAULT (holding 4 [97] 0 [97] fifoInput)
        (Event.ready [STDIN_FILENO] (ReadResult.failed 97))
        = Step.next { holding 4 [97] 0 [97] fifoInput with
            input := withoutStdin (holding 4 [97] 0 [97] fifoInput).input } ∧
      STDIN_FILENO ∉ (withoutStdin (holding 4 [97] 0 [97] fifoInput).input).set ∧
      ∀ (rset2 : List Int) (rest : List Event),
        loop true 4 none BAR_RL_DEFAULT (holding 4 [97] 0 [97] fifoInput)
            (Event.ready [STDIN_FILENO] (ReadResult.failed 97)
              :: Event.ready rset2 (ReadResult.got 10) :: rest)
          = Outcome.returned (holding 4 [97] 0 [97] fifoInput).bufLen
              { holding 4 [97] 0 [97] fifoInput with
                input := withoutStdin (holding 4 [97] 0 [97] fifoInput).input,
                out := (holding 4 [97] 0 [97] fifoInput).out ++ [10] } rest) :=
  ⟨⟨by decide, by decide⟩,
    iteration_stdin_eof true 4 none BAR_RL_DEFAULT (holding 4 [97] 0 [97] fifoInput)
      [STDIN_FILENO] 97 (by decide) (by decide)⟩

/-- Claim C12 on the code: standard input delivers `a`; then the fifo is
reported ready and the read on it returns 0, which leaves `chr` as it was.
The switch runs all the same: `a` is entered a second time and echoed.  With
a stale newline in `chr` the call returns. -/
theorem BarReadline_fifo_eof_dispatches_stale_chr :
    curFd fifoInput [5] = 5 ∧
    BarReadline true 4 none fifoInput BAR_RL_DEFAULT
        [Event.ready [STDIN_FILENO] (ReadResult.got 97)]
      = Outcome.running (holding 4 [97] 0 [97] fifoInput) ∧
    BarReadline true 4 none fifoInput BAR_RL_DEFAULT
        [Event.ready [STDIN_FILENO] (ReadResult.got 97), Event.ready [5] (ReadResult.failed 97)]
      = Outcome.running (holding 4 [97, 97] 0 [97, 97] fifoInput) ∧
    BarReadline true 4 none fifoInput BAR_RL_DEFAULT
        [Event.ready [STDIN_FILENO] (ReadResult.got 97), Event.ready [5] (ReadResult.failed 10)]
      = Outcome.returned 1 (holding 4 [97] 0 [97, 10] fifoInput) [] := by
  decide

/-! ## Output without echo -/

theorem backspace_quiet (flags : BarReadlineFlags) (s : RlState) (hne : flags.noecho = true) :
    QuietStep s.out (backspace flags s) := by
  unfold backspace
  simp only [hne, if_true]
  split
  · split
    · trivial
    · rfl
  · split
    · trivial
    · split
      · rfl
      · rfl

theorem defaultCase_quiet (charSigned : Bool) (bufSize : Nat) (mask : Option (List Nat))
    (flags : BarReadlineFlags) (s : RlState) (chr : Nat) (hne : flags.noecho = true) :
    QuietStep s.out (defaultCase charSigned bufSize mask flags s chr) := by
  unfold defaultCase appendChr
  simp only [hne, if_true]
  repeat' split
  all_goals first | rfl | trivial

theorem dispatch_quiet (charSigned : Bool) (bufSize : Nat) (mask : Option (List Nat))
    (flags : BarReadlineFlags) (s : RlState) (chr : Nat) (hne : flags.noecho = true) :
    QuietStep s.out (dispatch charSigned bufSize mask flags s chr) := by
  unfold dispatch
  split
  · rfl
  · split
    · rfl
    · split
      · rfl
      · split
        · rfl
        · split
          · exact backspace_quiet flags s hne
          · exact defaultCase_quiet charSigned bufSize mask flags s chr hne

theorem iteration_quiet (charSigned : Bool) (bufSize : Nat) (mask : Option (List Nat))
    (flags : BarReadlineFlags) (s : RlState) (rset : List Int) (r : ReadResult)
    (hne : flags.noecho = true) :
    QuietStep s.out (iteration charSigned bufSize mask flags s (Event.ready rset r)) := by
  cases r with
  | got b => exact dispatch_quiet charSigned bufSize mask flags s b hne
  | failed stale =>
    simp only [iteration]
    split
    · rfl
    · exact dispatch_quiet charSigned bufSize mask flags s stale hne

/-- Without echo, a loop that waits has written nothing, and a loop that has
returned after consuming all of `evs` has written one newline, or nothing when
the return is due to a failure of `select`. -/
theorem loop_quiet (charSigned : Bool) (bufSize : Nat) (mask : Option (List Nat))
    (flags : BarReadlineFlags) (hne : flags.noecho = true) (evs : List Event) :
    ∀ s : RlState,
      (∀ s1, loop charSigned bufSize mask flags s evs = Outcome.running s1 → s1.out = s.out) ∧
      (∀ n s1, loop charSigned bufSize mask flags s evs = Outcome.returned n s1 [] →
        (Event.selectFail ∉ evs → s1.out = s.out ++ [10]) ∧
        (Event.selectFail ∈ evs → s1.out = s.out)) := by
  induction evs with
  | nil =>
    intro s
    constructor
    · intro s1 h
      simp only [loop, Outcome.running.injEq] at h
      rw [← h]
    · intro n s1 h
      simp [loop] at h
  | cons e es ih =>
    intro s
    cases e with
    | selectFail =>
      constructor
      · intro s1 h
        simp [loop, iteration] at h
      · intro n s1 h
        simp only [loop, iteration, Outcome.returned.injEq] at h
        refine ⟨fun hno => absurd (List.mem_cons_self _ _) hno, fun _ => ?_⟩
        rw [← h.2.1]
    | ready rset r =>
      have hq := iteration_quiet charSigned bufSize mask flags s rset r hne
      simp only [loop]
      generalize iteration charSigned bufSize mask flags s (Event.ready rset r) = st at hq
      cases st with
      | next s2 =>
        have hs2 : s2.out = s.out := hq
        simp only
        obtain ⟨h1, h2⟩ := ih s2
        constructor
        · intro s1 h
          rw [h1 s1 h, hs2]
        · intro n s1 h
          obtain ⟨h3, h4⟩ := h2 n s1 h
          rw [← hs2]
          constructor
          · intro hno
            exact h3 (fun hm => hno (List.mem_cons_of_mem _ hm))
          · intro hin
            apply h4
            rcases List.mem_cons.1 hin with h0 | h0
            · cases h0
            · exact h0
      | ret m s2 =>
        have hs2 : s2.out = s.out ++ [10] := hq
        simp only
        constructor
        · intro s1 h
          simp at h
        · intro n s1 h
          simp only [Outcome.returned.injEq] at h
          obtain ⟨_, h2, h3⟩ := h
          subst h3
          rw [← h2]
          refine ⟨fun _ => hs2, fun hin => ?_⟩
          simp at hin
      | fault =>
        simp only
        constructor
        · intro s1 h
          simp at h
        · intro n s1 h
          simp at h

/-- Claim C13, as stated, fails: with the no-echo flag set, the line `a` ended
by a newline makes the call write a newline. -/
theorem BarReadline_noecho_writes_newline :
    BAR_RL_NOECHO.noecho = true ∧
    BarReadline true 4 none stdinOnly BAR_RL_NOECHO (typed [0] [97, 10])
      = Outcome.returned 1
          { buf := [97, 0, 0, 0], bufPos := 1, bufLen := 1, escapeState := 0, out := [10],
            input := stdinOnly } [] ∧
    ([10] : List Nat) ≠ [] := by
  decide

/-- Claim C13, amended.  With the no-echo flag set, for every capacity, mask
and input stream, a call writes no accepted character and no backspace control
sequence: it has written nothing as long as it waits, nothing when it returns
because `select` failed, and exactly one newline byte when it returns on
newline, EOT or a full buffer. -/
theorem BarReadline_noecho_output (charSigned : Bool) (bufSize : Nat)
    (mask : Option (List Nat)) (input : BarReadlineFds) (flags : BarReadlineFlags)
    (consumed rest : List Event) (hne : flags.noecho = true) :
    (∀ s, BarReadline charSigned bufSize mask input flags consumed = Outcome.running s →
      s.out = []) ∧
    (∀ n s, BarReadline charSigned bufSize mask input flags (consumed ++ rest)
        = Outcome.returned n s rest →
      (Event.selectFail ∉ consumed → s.out = [10]) ∧
      (Event.selectFail ∈ consumed → s.out = [])) := by
  unfold BarReadline
  by_cases h0 : bufSize = 0
  · rw [if_pos h0, if_pos h0]
    constructor
    · intro s h
      simp at h
    · intro n s h
      simp at h
  · rw [if_neg h0, if_neg h0]
    obtain ⟨h1, h2⟩ := loop_quiet charSigned bufSize mask flags hne consumed
      (initState bufSize input)
    constructor
    · intro s h
      exact h1 s h
    · intro n s h
      have hc := loop_consumed charSigned bufSize mask flags _ s n consumed rest h
      have := h2 n s hc
      simpa [initState] using this

/-- Claim C13, amended, at the line `a`, a backspace, `b` and a newline. -/
theorem BarReadline_noecho_output_witness :
    BAR_RL_NOECHO.noecho = true ∧
    ((∀ s, BarReadline true 4 none stdinOnly BAR_RL_NOECHO (typed [0] [97, 127, 98, 10])
        = Outcome.running s → s.out = []) ∧
      (∀ n s, BarReadline true 4 none stdinOnly BAR_RL_NOECHO
          (typed [0] [97, 127, 98, 10] ++ typed [0] [99]) = Outcome.returned n s (typed [0] [99]) →
        (Event.selectFail ∉ typed [0] [97, 127, 98, 10] → s.out = [10]) ∧
        (Event.selectFail ∈ typed [0] [97, 127, 98, 10] → s.out = []))) :=
  ⟨by decide,
    BarReadline_noecho_output true 4 none stdinOnly BAR_RL_NOECHO
      (typed [0] [97, 127, 98, 10]) (typed [0] [99]) (by decide)⟩

/-! ## The invariant, stated on the buffer -/

/-- In every state that the model of a call reaches, that is, as long as no
access leaves the buffer: the position is the length, the length is at most
capacity-1, `buf[i] != 0` for every `i` below the length and `buf[i] == 0` for
every `i` from the length up to the capacity. -/
theorem BarReadline_loop_invariant (charSigned : Bool) (bufSize : Nat)
    (mask : Option (List Nat)) (input : BarReadlineFds) (flags : BarReadlineFlags)
    (evs : List Event) (s : RlState)
    (hreach : reached (BarReadline charSigned bufSize mask input flags evs) = some s) :
    s.bufPos = s.bufLen ∧ s.bufLen ≤ bufSize - 1 ∧ s.buf.length = bufSize ∧
      (∀ i, i < s.bufLen → ∃ v, s.buf[i]? = some v ∧ v ≠ 0) ∧
      (∀ i, s.bufLen ≤ i → i < bufSize → s.buf[i]? = some 0) := by
  have hinv := reached_inv charSigned bufSize mask input flags evs s hreach
  obtain ⟨h1, h2, h3, _, h5, h6, _⟩ := inv_line bufSize mask s hinv
  exact ⟨h1, h2, h3, h5, h6⟩

/-- The state reached after `a`, `b`, `c`, `d`, a backspace and a control byte,
with capacity 4. -/
theorem BarReadline_loop_invariant_witness :
    reached (BarReadline true 4 none stdinOnly BAR_RL_DEFAULT
        (typed [0] [97, 98, 99, 100, 127, 7]))
      = some (holding 4 [97, 98] 0 ([97, 98, 99] ++ caretBackErase) stdinOnly) ∧
    ((holding 4 [97, 98] 0 ([97, 98, 99] ++ caretBackErase) stdinOnly).bufPos
        = (holding 4 [97, 98] 0 ([97, 98, 99] ++ caretBackErase) stdinOnly).bufLen ∧
      (holding 4 [97, 98] 0 ([97, 98, 99] ++ caretBackErase) stdinOnly).bufLen ≤ 4 - 1 ∧
      (holding 4 [97, 98] 0 ([97, 98, 99] ++ caretBackErase) stdinOnly).buf.length = 4 ∧
      (∀ i, i < (holding 4 [97, 98] 0 ([97, 98, 99] ++ caretBackErase) stdinOnly).bufLen →
        ∃ v, (holding 4 [97, 98] 0 ([97, 98, 99] ++ caretBackErase) stdinOnly).buf[i]?
          = some v ∧ v ≠ 0) ∧
      (∀ i, (holding 4 [97, 98] 0 ([97, 98, 99] ++ caretBackErase) stdinOnly).bufLen ≤ i →
        i < 4 →
        (holding 4 [97, 98] 0 ([97, 98, 99] ++ caretBackErase) stdinOnly).buf[i]? = some 0)) :=
  ⟨by decide,
    BarReadline_loop_invariant true 4 none stdinOnly BAR_RL_DEFAULT
      (typed [0] [97, 98, 99, 100, 127, 7])
      (holding 4 [97, 98] 0 ([97, 98, 99] ++ caretBackErase) stdinOnly) (by decide)⟩

/-- In every state in which the model of a call waits for a byte, that is, as
long as no access has left the buffer: the condition of the branch that
deletes at position 0, `bufPos == 0` and `buf[bufPos] != 0`, is false; and a
backspace byte received while the line is empty leaves the whole state as it
is. -/
theorem delete_at_zero_unreachable (charSigned : Bool) (bufSize : Nat)
    (mask : Option (List Nat)) (input : BarReadlineFds) (flags : BarReadlineFlags)
    (evs : List Event) (s : RlState)
    (hrun : BarReadline charSigned bufSize mask input flags evs = Outcome.running s) :
    (s.bufPos = 0 → s.buf[s.bufPos]? = some 0) ∧
      (s.bufLen = 0 → ∀ chr, chr = 8 ∨ chr = 127 →
        dispatch charSigned bufSize mask flags s chr = Step.next s) := by
  have hinv : Inv bufSize mask s :=
    reached_inv charSigned bufSize mask input flags evs s (by rw [hrun]; rfl)
  obtain ⟨h1, _, _, h4, _, _, _⟩ := inv_line bufSize mask s hinv
  have hz : s.bufPos = 0 → s.buf[s.bufPos]? = some 0 := by
    intro hp
    rw [h1]
    exact h4
  refine ⟨hz, ?_⟩
  intro hl chr hchr
  have hp : s.bufPos = 0 := by omega
  rw [dispatch_backspace charSigned bufSize mask flags s chr hchr]
  unfold backspace
  rw [if_neg (by omega), hz hp]
  simp

/-- The start of a call and the state after a line was emptied again. -/
theorem delete_at_zero_unreachable_witness :
    BarReadline true 4 none stdinOnly BAR_RL_DEFAULT (typed [0] [97, 8])
      = Outcome.running (holding 4 [] 0 ([97] ++ caretBackErase) stdinOnly) ∧
    (((holding 4 [] 0 ([97] ++ caretBackErase) stdinOnly).bufPos = 0 →
        (holding 4 [] 0 ([97] ++ caretBackErase) stdinOnly).buf[
          (holding 4 [] 0 ([97] ++ caretBackErase) stdinOnly).bufPos]? = some 0) ∧
      ((holding 4 [] 0 ([97] ++ caretBackErase) stdinOnly).bufLen = 0 →
        ∀ chr, chr = 8 ∨ chr = 127 →
          dispatch true 4 none BAR_RL_DEFAULT
              (holding 4 [] 0 ([97] ++ caretBackErase) stdinOnly) chr
            = Step.next (holding 4 [] 0 ([97] ++ caretBackErase) stdinOnly))) :=
  ⟨by decide,
    delete_at_zero_unreachable true 4 none stdinOnly BAR_RL_DEFAULT (typed [0] [97, 8])
      (holding 4 [] 0 ([97] ++ caretBackErase) stdinOnly) (by decide)⟩

/-! ## The states of the escape filter -/

theorem dispatch_printable (charSigned : Bool) (bufSize : Nat) (mask : Option (List Nat))
    (flags : BarReadlineFlags) (s : RlState) (b : Nat) (hp : printable charSigned b = true) :
    dispatch charSigned bufSize mask flags s b
      = (if s.escapeState = 2 then Step.next { s with escapeState := 0 }
        else if s.escapeState = 1 ∧ b = 91 then Step.next { s with escapeState := 2 }
        else if maskRejects mask b then Step.next s
        else appendChr bufSize flags s b) := by
  obtain ⟨h1, h2, h3, h4, h5, h6, h7⟩ := printable_spec charSigned b hp
  unfold dispatch
  rw [if_neg h2, if_neg h3, if_neg h4, if_neg h5, if_neg (by omega)]
  unfold defaultCase
  rw [if_neg h1]

theorem dispatch_end_filter (charSigned : Bool) (bufSize : Nat) (mask : Option (List Nat))
    (flags : BarReadlineFlags) (s : RlState) (b : Nat) (hesc : s.escapeState = 2)
    (hp : printable charSigned b = true) :
    dispatch charSigned bufSize mask flags s b = Step.next { s with escapeState := 0 } := by
  rw [dispatch_printable charSigned bufSize mask flags s b hp, if_pos hesc]

theorem printable_bracket (charSigned : Bool) : printable charSigned 91 = true := by
  cases charSigned <;> decide

theorem dispatch_bracket (charSigned : Bool) (bufSize : Nat) (mask : Option (List Nat))
    (flags : BarReadlineFlags) (s : RlState) (hesc : s.escapeState = 1) :
    dispatch charSigned bufSize mask flags s 91 = Step.next { s with escapeState := 2 } := by
  rw [dispatch_printable charSigned bufSize mask flags s 91 (printable_bracket charSigned),
    if_neg (by omega), if_pos ⟨hesc, rfl⟩]

/-- Claim C15, as stated, fails: after ESC and `[` with the line `a` entered,
a newline as the next byte ends the call and is written to the output, and a
backspace as the next byte deletes `a`; the filter does not consume them. -/
theorem escape_filter_not_ended_by_any_byte :
    loop true 4 none BAR_RL_DEFAULT (holding 4 [97] 0 [97] stdinOnly) (typed [0] [27, 91])
      = Outcome.running (holding 4 [97] 2 [97] stdinOnly) ∧
    dispatch true 4 none BAR_RL_DEFAULT (holding 4 [97] 2 [97] stdinOnly) 10
      = Step.ret 1 (holding 4 [97] 2 [97, 10] stdinOnly) ∧
    dispatch true 4 none BAR_RL_DEFAULT (holding 4 [97] 2 [97] stdinOnly) 127
      = Step.next (holding 4 [] 2 ([97] ++ caretBackErase) stdinOnly) := by
  decide

/-- Claim C15, amended.  Once the escape filter has seen ESC followed by `[`,
the very next input byte, when it is a printable candidate (above 0x1F as a
`char` and neither 126 nor 127), ends the filter: the byte is discarded, the
escape state is idle again and nothing else changes, neither the buffer nor
the position, the length or the output, and the call does not return.  So
ESC, `[` and such a byte, entered in an idle state, lead back to that state. -/
theorem escape_filter_ended_by_printable (charSigned : Bool) (bufSize : Nat)
    (mask : Option (List Nat)) (flags : BarReadlineFlags) (b : Nat)
    (hp : printable charSigned b = true) :
    (∀ s : RlState, s.escapeState = 2 →
      dispatch charSigned bufSize mask flags s b = Step.next { s with escapeState := 0 }) ∧
    (∀ (s : RlState) (rset : List Int), s.escapeState = 0 →
      loop charSigned bufSize mask flags s (typed rset [27, 91, b]) = Outcome.running s) := by
  constructor
  · intro s hesc
    exact dispatch_end_filter charSigned bufSize mask flags s b hesc hp
  · intro s rset hidle
    obtain ⟨buf, pos, len, esc, out, input⟩ := s
    simp only at hidle
    subst hidle
    have h1 : dispatch charSigned bufSize mask flags
        { buf := buf, bufPos := pos, bufLen := len, escapeState := 0, out := out,
          input := input } 27
        = Step.next
          { buf := buf, bufPos := pos, bufLen := len, escapeState := 1, out := out,
            input := input } := by
      simp [dispatch]
    simp only [typed, List.map, loop, iteration, h1]
    rw [dispatch_bracket charSigned bufSize mask flags _ rfl]
    simp only
    rw [dispatch_end_filter charSigned bufSize mask flags _ b rfl hp]

/-- Claim C15, amended, at the byte `3` after ESC and `[`, with the line `a`
entered. -/
theorem escape_filter_ended_by_printable_witness :
    printable true 51 = true ∧
    ((holding 4 [97] 2 [97] stdinOnly).escapeState = 2 ∧
      dispatch true 4 none BAR_RL_DEFAULT (holding 4 [97] 2 [97] stdinOnly) 51
        = Step.next { holding 4 [97] 2 [97] stdinOnly with escapeState := 0 }) ∧
    ((holding 4 [97] 0 [97] stdinOnly).escapeState = 0 ∧
      loop true 4 none BAR_RL_DEFAULT (holding 4 [97] 0 [97] stdinOnly) (typed [0] [27, 91, 51])
        = Outcome.running (holding 4 [97] 0 [97] stdinOnly)) :=
  ⟨by decide,
    ⟨by decide,
      (escape_filter_ended_by_printable true 4 none BAR_RL_DEFAULT 51 (by decide)).1
        (holding 4 [97] 2 [97] stdinOnly) (by decide)⟩,
    ⟨by decide,
      (escape_filter_ended_by_printable true 4 none BAR_RL_DEFAULT 51 (by decide)).2
        (holding 4 [97] 0 [97] stdinOnly) [0] (by decide)⟩⟩

theorem backspace_escapeState (flags : BarReadlineFlags) (s s1 : RlState)
    (h : backspace flags s = Step.next s1) : s1.escapeState = s.escapeState := by
  unfold backspace at h
  split at h
  · split at h
    · simp at h
    · simp only [Step.next.injEq] at h
      rw [← h]
  · split at h
    · simp at h
    · split at h
      · simp only [Step.next.injEq] at h
        rw [← h]
      · simp only [Step.next.injEq] at h
        rw [← h]

theorem appendChr_escapeState (bufSize : Nat) (flags : BarReadlineFlags) (s s1 : RlState)
    (chr : Nat) (h : appendChr bufSize flags s chr = Step.next s1) :
    s1.escapeState = s.escapeState := by
  unfold appendChr at h
  split at h
  · split at h
    · split at h
      · simp at h
      · simp only [Step.next.injEq] at h
        rw [← h]
    · simp at h
  · simp only [Step.next.injEq] at h
    rw [← h]

/-- The state SawEscape is left only by `[`: any other byte after which the
loop goes on leaves the escape state at 1. -/
theorem dispatch_keeps_saw_escape (charSigned : Bool) (bufSize : Nat)
    (mask : Option (List Nat)) (flags : BarReadlineFlags) (s s1 : RlState) (b : Nat)
    (hesc : s.escapeState = 1) (hb : b ≠ 91)
    (h : dispatch charSigned bufSize mask flags s b = Step.next s1) :
    s1.escapeState = 1 := by
  unfold dispatch at h
  split at h
  · simp at h
  · split at h
    · simp at h
    · split at h
      · simp only [Step.next.injEq] at h
        rw [← h]
      · split at h
        · simp only [Step.next.injEq] at h
          rw [← h, hesc]
        · split at h
          · rw [backspace_escapeState flags s s1 h, hesc]
          · unfold defaultCase at h
            split at h
            · simp only [Step.next.injEq] at h
              rw [← h, hesc]
            · rw [if_neg (by omega), if_neg (fun hc => hb hc.2)] at h
              split at h
              · simp only [Step.next.injEq] at h
                rw [← h, hesc]
              · rw [appendChr_escapeState bufSize flags s s1 b h, hesc]

theorem appendChr_setEscape (bufSize : Nat) (flags : BarReadlineFlags) (s : RlState)
    (chr e : Nat) :
    appendChr bufSize flags { s with escapeState := e } chr
      = setEscape e (appendChr bufSize flags s chr) := by
  unfold appendChr
  simp only
  split
  · split
    · split
      · rfl
      · rfl
    · rfl
  · rfl

/-- In the state SawEscape a printable byte other than `[` is handled as in
the idle state, and the state stays SawEscape. -/
theorem dispatch_candidate_saw_escape (charSigned : Bool) (bufSize : Nat)
    (mask : Option (List Nat)) (flags : BarReadlineFlags) (s : RlState) (b : Nat)
    (hesc : s.escapeState = 1) (hp : printable charSigned b = true) (hb : b ≠ 91) :
    dispatch charSigned bufSize mask flags s b
      = setEscape 1 (dispatch charSigned bufSize mask flags { s with escapeState := 0 } b) := by
  obtain ⟨buf, pos, len, esc, out, input⟩ := s
  simp only at hesc
  subst hesc
  rw [dispatch_printable charSigned bufSize mask flags _ b hp,
    dispatch_printable charSigned bufSize mask flags _ b hp]
  simp only
  have e1 : ((1 : Nat) = 2) = False := by decide
  have e2 : ((0 : Nat) = 2) = False := by decide
  have e3 : ((0 : Nat) = 1) = False := by decide
  simp only [e1, e2, e3, hb, and_false, false_and, if_false]
  cases hm : maskRejects mask b with
  | true =>
    rw [if_pos rfl, if_pos rfl]
    rfl
  | false =>
    rw [if_neg Bool.false_ne_true, if_neg Bool.false_ne_true]
    exact appendChr_setEscape bufSize flags
      { buf := buf, bufPos := pos, bufLen := len, escapeState := 0, out := out,
        input := input } b 1

theorem loop_keeps_saw_escape (charSigned : Bool) (bufSize : Nat)
    (mask : Option (List Nat)) (flags : BarReadlineFlags) (rset : List Int) (bs : List Nat) :
    ∀ s s1 : RlState, s.escapeState = 1 → (∀ b ∈ bs, b ≠ 91) →
      loop charSigned bufSize mask flags s (typed rset bs) = Outcome.running s1 →
      s1.escapeState = 1 := by
  induction bs with
  | nil =>
    intro s s1 hesc _ h
    simp only [typed, List.map, loop, Outcome.running.injEq] at h
    rw [← h, hesc]
  | cons b t ih =>
    intro s s1 hesc hall h
    have hty : typed rset (b :: t) = Event.ready rset (ReadResult.got b) :: typed rset t := rfl
    rw [hty] at h
    simp only [loop, iteration] at h
    cases hd : dispatch charSigned bufSize mask flags s b with
    | next s2 =>
      rw [hd] at h
      exact ih s2 s1
        (dispatch_keeps_saw_escape charSigned bufSize mask flags s s2 b hesc
          (hall b (by simp)) hd)
        (fun x hx => hall x (by simp [hx])) h
    | ret n s2 =>
      rw [hd] at h
      simp at h
    | fault =>
      rw [hd] at h
      simp at h

/-- Claim C19.  In the state SawEscape, the state after ESC: a byte other than
`[` after which the loop goes on leaves the state SawEscape; a printable byte
other than `[` is handled as an ordinary candidate, as in the idle state, while
the state stays SawEscape; and after any number of bytes other than `[`, when
the call still waits, the next `[` and the printable byte after it are both
discarded: they change nothing but the escape state, which is idle after
them. -/
theorem saw_escape_left_only_by_bracket (charSigned : Bool) (bufSize : Nat)
    (mask : Option (List Nat)) (flags : BarReadlineFlags) (s : RlState)
    (hesc : s.escapeState = 1) :
    (∀ (b : Nat) (s1 : RlState), b ≠ 91 →
      dispatch charSigned bufSize mask flags s b = Step.next s1 → s1.escapeState = 1) ∧
    (∀ b : Nat, printable charSigned b = true → b ≠ 91 →
      dispatch charSigned bufSize mask flags s b
        = setEscape 1
            (dispatch charSigned bufSize mask flags { s with escapeState := 0 } b)) ∧
    (∀ (rset : List Int) (bs : List Nat) (c : Nat) (s1 : RlState),
      (∀ b ∈ bs, b ≠ 91) → printable charSigned c = true →
      loop charSigned bufSize mask flags s (typed rset bs) = Outcome.running s1 →
      s1.escapeState = 1 ∧
        loop charSigned bufSize mask flags s (typed rset (bs ++ [91, c]))
          = Outcome.running { s1 with escapeState := 0 }) := by
  refine ⟨?_, ?_, ?_⟩
  · intro b s1 hb h
    exact dispatch_keeps_saw_escape charSigned bufSize mask flags s s1 b hesc hb h
  · intro b hp hb
    exact dispatch_candidate_saw_escape charSigned bufSize mask flags s b hesc hp hb
  · intro rset bs c s1 hall hc hrun
    have h1 := loop_keeps_saw_escape charSigned bufSize mask flags rset bs s s1 hesc hall hrun
    refine ⟨h1, ?_⟩
    rw [typed_append, loop_append, hrun]
    simp only [resume, typed, List.map, loop, iteration]
    rw [dispatch_bracket charSigned bufSize mask flags s1 h1]
    simp only
    rw [dispatch_end_filter charSigned bufSize mask flags _ c rfl hc]

/-- Claim C19 after ESC in a call with capacity 6: the bytes `a`, `b` are
entered while the state stays SawEscape, and the following `[`, `A` are
discarded. -/
theorem saw_escape_left_only_by_bracket_witness :
    (holding 6 [] 1 [] stdinOnly).escapeState = 1 ∧
    dispatch true 6 none BAR_RL_DEFAULT (holding 6 [] 1 [] stdinOnly) 97
      = setEscape 1
          (dispatch true 6 none BAR_RL_DEFAULT
            { holding 6 [] 1 [] stdinOnly with escapeState := 0 } 97) ∧
    (holding 6 [97, 98] 1 [97, 98] stdinOnly).escapeState = 1 ∧
    loop true 6 none BAR_RL_DEFAULT (holding 6 [] 1 [] stdinOnly)
        (typed [0] ([97, 98] ++ [91, 65]))
      = Outcome.running { holding 6 [97, 98] 1 [97, 98] stdinOnly with escapeState := 0 } :=
  ⟨by decide,
    (saw_escape_left_only_by_bracket true 6 none BAR_RL_DEFAULT (holding 6 [] 1 [] stdinOnly)
      (by decide)).2.1 97 (by decide) (by decide),
    (saw_escape_left_only_by_bracket true 6 none BAR_RL_DEFAULT (holding 6 [] 1 [] stdinOnly)
      (by decide)).2.2 [0] [97, 98] 65 (holding 6 [97, 98] 1 [97, 98] stdinOnly)
      (by decide) (by decide) (by decide)⟩

/-! ## The integer of `BarReadlineInt` -/

theorem atoi_range (str : List Nat) (v : Int) (h : atoi str = some v) :
    INT_MIN ≤ v ∧ v ≤ INT_MAX := by
  unfold atoi at h
  simp only at h
  split at h
  · rename_i hr
    simp only [Option.some.injEq] at h
    rw [← h]
    exact hr
  · simp at h

/-- Claim C16, as stated, fails: the ten digits `2147483648`, which the
16-byte buffer takes, have a value above `INT_MAX`, and `atoi` has no
representable result for them. -/
theorem BarReadlineInt_ten_digits_overflow :
    BarReadlineInt true stdinOnly
        (typed [0] [50, 49, 52, 55, 52, 56, 51, 54, 52, 56, 10])
      = some (10, none) ∧
    decimalValue [50, 49, 52, 55, 52, 56, 51, 54, 52, 56] = 2147483648 ∧
    INT_MAX < 2147483648 := by
  decide

/-- Claim C16, amended.  Whenever the core loop returns to `BarReadlineInt`,
the 16-byte scratch buffer holds a string of at most 15 bytes that are all
decimal digits, and `atoi` is applied to it; when the string has at most 9
digits, its decimal value is representable in the `int` out-parameter and is
the value stored. -/
theorem BarReadlineInt_digits_fit (charSigned : Bool) (input : BarReadlineFds)
    (evs : List Event) (n : Nat) (s : RlState) (rest : List Event)
    (hret : BarReadline charSigned 16 (some digitMask) input BAR_RL_DEFAULT evs
      = Outcome.returned n s rest) :
    BarReadlineInt charSigned input evs = some (n, atoi (cString s.buf)) ∧
      (∀ d ∈ cString s.buf, isdigit d = true) ∧
      (cString s.buf).length ≤ 15 ∧
      ((cString s.buf).length ≤ 9 →
        atoi (cString s.buf) = some ((decimalValue (cString s.buf) : Nat) : Int) ∧
        ((decimalValue (cString s.buf) : Nat) : Int) ≤ INT_MAX) := by
  have hinv : Inv 16 (some digitMask) s :=
    reached_inv charSigned 16 (some digitMask) input BAR_RL_DEFAULT evs s (by rw [hret]; rfl)
  obtain ⟨_, h2, _, _, _, _, h7⟩ := inv_line 16 (some digitMask) s hinv
  obtain ⟨hcl, _⟩ := inv_length 16 (some digitMask) s hinv
  have hdig : ∀ d ∈ cString s.buf, isdigit d = true := by
    intro d hd
    rw [h7] at hd
    obtain ⟨hd0, hdm⟩ := hinv.2.2.2 d hd
    rw [← digitMask_contains]
    simpa [maskRejects, strchr, hd0] using hdm
  refine ⟨?_, hdig, ?_, ?_⟩
  · unfold BarReadlineInt
    rw [hret]
  · rw [h7, hcl]
    omega
  · intro h9
    have ha := atoi_digits (cString s.buf) hdig h9
    exact ⟨ha, (atoi_range _ _ ha).2⟩

/-- Claim C16, amended, at the line `42` ended by a newline. -/
theorem BarReadlineInt_digits_fit_witness :
    BarReadline true 16 (some digitMask) stdinOnly BAR_RL_DEFAULT (typed [0] [52, 50, 10])
      = Outcome.returned 2 (holding 16 [52, 50] 0 [52, 50, 10] stdinOnly) [] ∧
    (BarReadlineInt true stdinOnly (typed [0] [52, 50, 10])
        = some (2, atoi (cString (holding 16 [52, 50] 0 [52, 50, 10] stdinOnly).buf)) ∧
      (∀ d ∈ cString (holding 16 [52, 50] 0 [52, 50, 10] stdinOnly).buf, isdigit d = true) ∧
      (cString (holding 16 [52, 50] 0 [52, 50, 10] stdinOnly).buf).length ≤ 15 ∧
      ((cString (holding 16 [52, 50] 0 [52, 50, 10] stdinOnly).buf).length ≤ 9 →
        atoi (cString (holding 16 [52, 50] 0 [52, 50, 10] stdinOnly).buf)
          = some ((decimalValue
              (cString (holding 16 [52, 50] 0 [52, 50, 10] stdinOnly).buf) : Nat) : Int) ∧
        ((decimalValue
            (cString (holding 16 [52, 50] 0 [52, 50, 10] stdinOnly).buf) : Nat) : Int)
          ≤ INT_MAX)) :=
  ⟨by decide,
    BarReadlineInt_digits_fit true stdinOnly (typed [0] [52, 50, 10]) 2
      (holding 16 [52, 50] 0 [52, 50, 10] stdinOnly) [] (by decide)⟩

/-! ## Backspace on continuation bytes alone -/

/-- On a line made of continuation bytes alone the content loop removes them
all and then evaluates `buf[bufPos-1]` with `bufPos == 0`. -/
theorem deleteUtf8Content_all_content (conts : List Nat) :
    ∀ tail : List Nat, (∀ c ∈ conts, BarReadlineIsUtf8Content c = true) →
      deleteUtf8Content conts.length (conts ++ 0 :: tail) conts.length = none := by
  induction conts using List.reverseRecOn with
  | nil =>
    intro tail _
    rfl
  | append_singleton cs c ih =>
    intro tail hall
    have hc : BarReadlineIsUtf8Content c = true := hall c (by simp)
    have e1 : (cs ++ [c]).length = cs.length + 1 := by simp
    have e2 : cs ++ [c] ++ 0 :: tail = cs ++ c :: 0 :: tail := by simp
    rw [e1, e2, deleteUtf8Content_step cs c tail hc]
    exact ih (0 :: tail) (fun x hx => hall x (by simp [hx]))

/-- Claim C18 on the code: in the state with the line `0x82` alone, position
and length 1 and `buf[1] == 0`, a backspace byte makes the content loop read
`buf[bufPos-1]` with `bufPos == 0`, an access before the start of the buffer.
Where plain `char` is unsigned the state is reached by entering the byte
`0x82`. -/
theorem backspace_reads_before_buffer :
    ([0x82, 0, 0, 0] : List Nat)[1]? = some 0 ∧
    BarReadlineIsUtf8Content 0x82 = true ∧
    BarReadlineMoveLeft [0x82, 0, 0, 0] 1 1 = some ([0, 0, 0, 0], 0, 0) ∧
    deleteUtf8Content 0 [0, 0, 0, 0] 0 = none ∧
    dispatch true 4 none BAR_RL_DEFAULT
        { buf := [0x82, 0, 0, 0], bufPos := 1, bufLen := 1, escapeState := 0, out := [],
          input := stdinOnly } 127
      = Step.fault ∧
    BarReadline false 4 none stdinOnly BAR_RL_DEFAULT (typed [0] [0x82])
      = Outcome.running (holding 4 [0x82] 0 [0x82] stdinOnly) ∧
    BarReadline false 4 none stdinOnly BAR_RL_DEFAULT (typed [0] [0x82, 127])
      = Outcome.outOfBounds := by
  decide

/-! ## Where plain `char` is signed, every access stays inside the buffer -/

theorem isAscii_of_lt (b : Nat) (h : b < 128) : BarReadlineIsAscii b = true := by
  interval_cases b <;> rfl

theorem ascii_of_signed_candidate (chr : Nat) (h256 : chr < 256)
    (hc : ¬ charVal true chr ≤ 0x1F) : BarReadlineIsAscii chr = true := by
  apply isAscii_of_lt
  by_contra hge
  apply hc
  have hd : decide (128 ≤ chr) = true := by
    simp
    omega
  unfold charVal
  rw [hd]
  simp
  omega

theorem asciiLine_congr (s s1 : RlState) (h : AsciiLine s) (hb : s1.buf = s.buf)
    (hl : s1.bufLen = s.bufLen) : AsciiLine s1 := by
  unfold AsciiLine content at *
  rw [hb, hl]
  exact h

theorem asciiLine_intro (bufSize : Nat) (s : RlState) (c : List Nat)
    (hbuf : s.buf = fill bufSize c) (hl : s.bufLen = c.length)
    (hall : ∀ b ∈ c, BarReadlineIsAscii b = true) : AsciiLine s := by
  unfold AsciiLine content
  rw [hbuf, hl, take_fill]
  exact hall

theorem backspace_safe (bufSize : Nat) (mask : Option (List Nat)) (flags : BarReadlineFlags)
    (s : RlState) (h : Inv bufSize mask s) (ha : AsciiLine s) :
    SafeStep (backspace flags s) := by
  obtain ⟨c, hlt, hbuf, hpos, hlen, _⟩ := inv_elim bufSize mask s h
  have hc : content s = c := by
    unfold content
    rw [hbuf, hlen, take_fill]
  unfold AsciiLine at ha
  rw [hc] at ha
  obtain ⟨buf, pos, len, esc, out, input⟩ := s
  simp only at hbuf hpos hlen
  subst hbuf hpos hlen
  unfold backspace
  simp only
  rcases List.eq_nil_or_concat c with h0 | ⟨init, l, h0⟩
  · subst h0
    have hz : (fill bufSize [])[([] : List Nat).length]? = some 0 := by
      rw [fill_eq bufSize [] hlt]
      exact getElem?_at [] 0 _
    rw [if_neg (by simp), hz]
    simp only [bne_self_eq_false, Bool.false_eq_true, if_false]
    exact asciiLine_intro bufSize _ [] rfl rfl (by simp)
  · rw [List.concat_eq_append] at h0
    subst h0
    have hl : BarReadlineIsAscii l = true := ha l (by simp)
    have e1 : (init ++ [l]).length = init.length + 1 := by simp
    have e2 : init ++ [l] ++ 0 :: List.replicate (bufSize - (init ++ [l]).length - 1) 0
        = init ++ l :: 0 :: List.replicate (bufSize - (init ++ [l]).length - 1) 0 := by simp
    rw [if_pos (by simp), fill_eq bufSize _ hlt, e2, e1, deleteLast_ascii init l _ hl]
    simp only
    apply asciiLine_intro bufSize _ init
    · simp only
      have := fill_split bufSize init [l] hlt
      simpa using this
    · rfl
    · intro b hb
      exact ha b (by simp [hb])

theorem appendChr_safe (bufSize : Nat) (mask : Option (List Nat)) (flags : BarReadlineFlags)
    (s : RlState) (chr : Nat) (h : Inv bufSize mask s) (ha : AsciiLine s)
    (hchr : BarReadlineIsAscii chr = true) :
    SafeStep (appendChr bufSize flags s chr) := by
  obtain ⟨c, hlt, hbuf, hpos, hlen, _⟩ := inv_elim bufSize mask s h
  have hc : content s = c := by
    unfold content
    rw [hbuf, hlen, take_fill]
  have hbl : s.buf.length = bufSize := (inv_length bufSize mask s h).2
  have hnew : ∀ s1 : RlState, s1.buf = s.buf.set s.bufPos chr → s1.bufLen = s.bufLen + 1 →
      AsciiLine s1 := by
    intro s1 e1 e2
    apply asciiLine_intro bufSize s1 (c ++ [chr])
    · rw [e1, hbuf, hpos, fill_set bufSize c chr hlt]
    · rw [e2, hlen]
      simp
    · intro b hb
      rcases List.mem_append.1 hb with hb1 | hb1
      · have := ha b (by rw [hc]; exact hb1)
        exact this
      · simp at hb1
        subst hb1
        exact hchr
  unfold appendChr
  split
  · rw [if_pos (by omega)]
    split
    · trivial
    · exact hnew _ rfl rfl
  · exact ha

theorem dispatch_safe (bufSize : Nat) (mask : Option (List Nat)) (flags : BarReadlineFlags)
    (s : RlState) (chr : Nat) (h : Inv bufSize mask s) (ha : AsciiLine s)
    (h256 : chr < 256) :
    SafeStep (dispatch true bufSize mask flags s chr) := by
  unfold dispatch
  split
  · trivial
  · split
    · trivial
    · split
      · exact asciiLine_congr s _ ha rfl rfl
      · split
        · exact ha
        · split
          · exact backspace_safe bufSize mask flags s h ha
          · unfold defaultCase
            split
            · exact ha
            · rename_i hc
              split
              · exact asciiLine_congr s _ ha rfl rfl
              · split
                · exact asciiLine_congr s _ ha rfl rfl
                · split
                  · exact ha
                  · exact appendChr_safe bufSize mask flags s chr h ha
                      (ascii_of_signed_candidate chr h256 hc)

theorem iteration_safe (bufSize : Nat) (mask : Option (List Nat)) (flags : BarReadlineFlags)
    (s : RlState) (e : Event) (h : Inv bufSize mask s) (ha : AsciiLine s)
    (hw : wellFormed e = true) :
    SafeStep (iteration true bufSize mask flags s e) := by
  cases e with
  | selectFail => trivial
  | ready rset r =>
    cases r with
    | got b =>
      exact dispatch_safe bufSize mask flags s b h ha (by simpa [wellFormed] using hw)
    | failed stale =>
      simp only [iteration]
      split
      · exact asciiLine_congr s _ ha rfl rfl
      · exact dispatch_safe bufSize mask flags s stale h ha (by simpa [wellFormed] using hw)

theorem loop_safe (bufSize : Nat) (mask : Option (List Nat)) (flags : BarReadlineFlags)
    (evs : List Event) :
    ∀ s : RlState, Inv bufSize mask s → AsciiLine s → (∀ e ∈ evs, wellFormed e = true) →
      loop true bufSize mask flags s evs ≠ Outcome.outOfBounds := by
  induction evs with
  | nil =>
    intro s _ _ _
    simp [loop]
  | cons e es ih =>
    intro s h ha hw
    have hsafe := iteration_safe bufSize mask flags s e h ha (hw e (by simp))
    have hinv : e ≠ Event.selectFail →
        StepInv bufSize mask (iteration true bufSize mask flags s e) := by
      intro hne
      cases e with
      | selectFail => exact absurd rfl hne
      | ready rset r => exact iteration_inv true bufSize mask flags s rset r h
    simp only [loop]
    cases hst : iteration true bufSize mask flags s e with
    | next s1 =>
      rw [hst] at hsafe
      have hne : e ≠ Event.selectFail := by
        intro h0
        subst h0
        simp [iteration] at hst
      have h1 := hinv hne
      rw [hst] at h1
      exact ih s1 h1 hsafe (fun x hx => hw x (by simp [hx]))
    | ret n s1 => simp
    | fault =>
      rw [hst] at hsafe
      exact absurd hsafe (by simp [SafeStep])

/-- Where plain `char` is signed, a call of `BarReadline` on bytes never
accesses the buffer outside its bounds: a byte above 127 does not enter the
line, so the loop that deletes continuation bytes never runs. -/
theorem BarReadline_signed_char_in_bounds (bufSize : Nat) (mask : Option (List Nat))
    (input : BarReadlineFds) (flags : BarReadlineFlags) (evs : List Event)
    (hw : ∀ e ∈ evs, wellFormed e = true) :
    BarReadline true bufSize mask input flags evs ≠ Outcome.outOfBounds := by
  unfold BarReadline
  by_cases h0 : bufSize = 0
  · rw [if_pos h0]
    simp
  · rw [if_neg h0]
    apply loop_safe bufSize mask flags evs _
      (initState_inv bufSize mask input (by omega)) _ hw
    apply asciiLine_intro bufSize _ []
    · simp [initState, fill]
    · rfl
    · simp

/-! ## Where plain `char` is unsigned: runs that leave the buffer -/

end UiReadline
